import Mathlib

/-!
Verification of the sales-aggregation and reporting pipeline of the
point-of-sale repository (dashboardService.ts, the SalesReport component,
and the supabase client wrapper).

The embedding works over a proleptic-Gregorian calendar model of the
JavaScript `Date` / date-fns functions used by the source, an
insertion-ordered association-list model of JavaScript object records
(with the ECMAScript rule that array-index-like keys enumerate in
ascending numeric order before other keys), and an insertion-ordered
association-list model of the JavaScript `Map` used by the report
component.  Amounts (JS numbers) are modelled as integers.
-/

namespace POS

/-! ## Calendar model (proleptic Gregorian, as used by JS Date / date-fns) -/
/-- Gregorian leap-year test. -/
def isLeapYear (y : Nat) : Bool :=
  (y % 4 == 0 && y % 100 != 0) || y % 400 == 0

/-- Length of month `m` (1-12) of year `y`.  Months outside 1-12 cannot be
produced by a JS `Date`; the default branch is arbitrary. -/
def daysInMonth (y m : Nat) : Nat :=
  match m with
  | 1 => 31
  | 2 => if isLeapYear y then 29 else 28
  | 3 => 31
  | 4 => 30
  | 5 => 31
  | 6 => 30
  | 7 => 31
  | 8 => 31
  | 9 => 30
  | 10 => 31
  | 11 => 30
  | 12 => 31
  | _ => 30

/-- A calendar date, the part of a JS `Date` value that the aggregation
label functions depend on (all the date-fns formats used by the source
ignore the time of day). -/
structure CalDate where
  year : Nat
  month : Nat
  day : Nat
deriving DecidableEq, Repr

/-- Validity of a calendar date (what a real JS `Date` always satisfies,
for years from 1 on; the source only ever handles modern dates). -/
def CalDate.Valid (d : CalDate) : Prop :=
  1 ≤ d.year ∧ 1 ≤ d.month ∧ d.month ≤ 12 ∧ 1 ≤ d.day ∧ d.day ≤ daysInMonth d.year d.month

instance (d : CalDate) : Decidable d.Valid := by
  unfold CalDate.Valid; infer_instance

/-- The calendar day before `d` (date-fns `subDays(d, 1)`). -/
def prevDay (d : CalDate) : CalDate :=
  if 2 ≤ d.day then ⟨d.year, d.month, d.day - 1⟩
  else if 2 ≤ d.month then ⟨d.year, d.month - 1, daysInMonth d.year (d.month - 1)⟩
  else ⟨d.year - 1, 12, 31⟩

/-- date-fns `subDays`. -/
def subDays (d : CalDate) (n : Nat) : CalDate :=
  prevDay^[n] d

/-- date-fns `subWeeks` (seven days per week). -/
def subWeeks (d : CalDate) (n : Nat) : CalDate :=
  subDays d (7 * n)

/-- date-fns `subMonths`: month arithmetic with the day-of-month clamped
to the length of the target month. -/
def subMonths (d : CalDate) (n : Nat) : CalDate :=
  let t := d.year * 12 + (d.month - 1) - n
  let y := t / 12
  let m := t % 12 + 1
  ⟨y, m, min d.day (daysInMonth y m)⟩

/-- date-fns `subYears`: same month, day clamped (Feb 29 → Feb 28). -/
def subYears (d : CalDate) (n : Nat) : CalDate :=
  let y := d.year - n
  ⟨y, d.month, min d.day (daysInMonth y d.month)⟩

/-- English month abbreviation, the date-fns `MMM` format (en-US locale). -/
def monthName (m : Nat) : String :=
  match m with
  | 1 => "Jan"
  | 2 => "Feb"
  | 3 => "Mar"
  | 4 => "Apr"
  | 5 => "May"
  | 6 => "Jun"
  | 7 => "Jul"
  | 8 => "Aug"
  | 9 => "Sep"
  | 10 => "Oct"
  | 11 => "Nov"
  | 12 => "Dec"
  | _ => "???"

/-- Two-digit zero-padded day, the date-fns `dd` format (days are 1-31). -/
def pad2 (n : Nat) : String :=
  if n < 10 then "0" ++ toString n else toString n

/-- Four-digit zero-padded year, the date-fns `yyyy` format (for years up
to 9999). -/
def pad4 (n : Nat) : String :=
  if n < 10 then "000" ++ toString n
  else if n < 100 then "00" ++ toString n
  else if n < 1000 then "0" ++ toString n
  else toString n

/-- The date-fns format string `'MMM dd'` used by the daily aggregator. -/
def fmtMMMdd (d : CalDate) : String :=
  monthName d.month ++ " " ++ pad2 d.day

/-- The date-fns format string `'dd MMM'` used by the weekly aggregator. -/
def fmtddMMM (d : CalDate) : String :=
  pad2 d.day ++ " " ++ monthName d.month

/-- The date-fns format string `'MMM'` used by the monthly aggregator. -/
def fmtMMM (d : CalDate) : String :=
  monthName d.month

/-- Number of leap years among years `1..n`. -/
def leapsBefore (n : Nat) : Nat :=
  ∑ k ∈ Finset.range n, (if isLeapYear (k + 1) then 1 else 0)

/-- Days of year `y` that precede the first day of month `m`. -/
def daysBeforeMonth (y m : Nat) : Nat :=
  ∑ k ∈ Finset.range (m - 1), daysInMonth y (k + 1)

/-- Linear day count of a date: the number of days from Jan 1 of year 1
(day number 0) to `d`.  This is the usual rata-die count and is the
measure used to reason about the calendar stepping functions. -/
def dayNumber (d : CalDate) : Nat :=
  365 * (d.year - 1) + leapsBefore (d.year - 1) + daysBeforeMonth d.year d.month + (d.day - 1)

/-- JS `Date.prototype.getDay` (0 = Sunday … 6 = Saturday), anchored so
that 1970-01-01 (day number 719162) is a Thursday (4). -/
def getDay (d : CalDate) : Nat :=
  (dayNumber d + 1) % 7

/-- date-fns `startOfWeek` with the default `weekStartsOn: 0` (Sunday). -/
def startOfWeek (d : CalDate) : CalDate :=
  subDays d (getDay d)

/-! ## Record model

JavaScript plain objects used as dictionaries (`Record<string, number>`)
keep non-array-index string keys in insertion order; assigning to an
existing key keeps its position, assigning to a fresh key appends it.
`Object.entries` enumerates keys in that order, except that keys that
are canonical numeric strings (array indices) come first, in ascending
numeric order.  The daily/weekly/monthly aggregators only ever create
keys containing letters and spaces, so a plain insertion-ordered
association list models them exactly; the yearly aggregator is treated
separately below because its keys are numeric strings. -/
/-- Value bound to key `k`, if any (also models JS `Map.get`). -/
def rlookup {κ ν : Type} [DecidableEq κ] (m : List (κ × ν)) (k : κ) : Option ν :=
  (m.find? (fun p => p.1 = k)).map (fun p => p.2)

/-- JS `obj[k] = v` (also JS `Map.set` / in-place mutation of a held
entry): replace in place if the key exists, else append. -/
def rset {κ ν : Type} [DecidableEq κ] (m : List (κ × ν)) (k : κ) (v : ν) : List (κ × ν) :=
  if (m.find? (fun p => p.1 = k)).isSome then
    m.map (fun p => if p.1 = k then (k, v) else p)
  else
    m ++ [(k, v)]

/-- JS `obj[k] = (obj[k] || 0) + v`. -/
def radd {κ : Type} [DecidableEq κ] (m : List (κ × Int)) (k : κ) (v : Int) : List (κ × Int) :=
  rset m k ((rlookup m k).getD 0 + v)

/-- Seed every label in `ks` with 0, in order (the initialisation loops of
the aggregators). -/
def seedZeros {κ : Type} [DecidableEq κ] (ks : List κ) : List (κ × Int) :=
  ks.foldl (fun m k => rset m k 0) []

/-- The keys of a record, in enumeration order. -/
def rkeys {κ ν : Type} [DecidableEq κ] (m : List (κ × ν)) : List κ :=
  m.map Prod.fst

/-- The values of a record, in enumeration order. -/
def rvalues {κ ν : Type} [DecidableEq κ] (m : List (κ × ν)) : List ν :=
  m.map Prod.snd

/-! ## dashboardService.ts -/
/-- The chart data point returned by every aggregator
(`interface SalesDataPoint`). -/
structure SalesDataPoint where
  label : String
  sales : Int
deriving DecidableEq, Repr

/-- A row of the `bills` table as selected by the aggregators
(`total, created_at`). -/
structure Bill where
  created_at : CalDate
  total : Int
deriving DecidableEq, Repr

/-- The shared aggregation loop: `bills?.forEach((bill) => { key(bill);
totals[key] = (totals[key] || 0) + Number(bill.total) })`. -/
def bucketize {κ : Type} [DecidableEq κ] (key : Bill → κ) (m : List (κ × Int))
    (bills : List Bill) : List (κ × Int) :=
  bills.foldl (fun m b => radd m (key b) b.total) m

/-- Turn record entries into chart points (`Object.entries(...).map`). -/
def toPoints (m : List (String × Int)) : List SalesDataPoint :=
  m.map (fun p => ⟨p.1, p.2⟩)

/-- The daily bucket label of a bill: `format(new Date(bill.created_at), 'MMM dd')`. -/
def dayKey (b : Bill) : String :=
  fmtMMMdd b.created_at

/-- The 30 seeded daily labels, in the loop's generation order
(`format(subDays(today, i), 'MMM dd')` for `i = 0 .. 29`). -/
def dailyLabels (today : CalDate) : List String :=
  (List.range 30).map (fun i => fmtMMMdd (subDays today i))

/-- `getDailySalesData`, after the fetch: seed the last 30 day labels with
0, add each bill's total under its own label, and return the entries
reversed (intended oldest-first). -/
def getDailySalesData (today : CalDate) (bills : List Bill) : List SalesDataPoint :=
  (toPoints (bucketize dayKey (seedZeros (dailyLabels today)) bills)).reverse

/-- The weekly bucket label of a bill:
`` `Week ${format(startOfWeek(billDate), 'dd MMM')}` ``. -/
def weekKey (b : Bill) : String :=
  "Week " ++ fmtddMMM (startOfWeek b.created_at)

/-- The 12 seeded weekly labels.  Note the source seeds with
`subWeeks(today, i)` directly, not with `startOfWeek(subWeeks(today, i))`. -/
def weeklyLabels (today : CalDate) : List String :=
  (List.range 12).map (fun i => "Week " ++ fmtddMMM (subWeeks today i))

/-- `getWeeklySalesData`, after the fetch. -/
def getWeeklySalesData (today : CalDate) (bills : List Bill) : List SalesDataPoint :=
  (toPoints (bucketize weekKey (seedZeros (weeklyLabels today)) bills)).reverse

/-- The monthly bucket label of a bill:
`format(new Date(bill.created_at), 'MMM')` — the month name alone, with
no year component. -/
def monthKey (b : Bill) : String :=
  fmtMMM b.created_at

/-- The 12 seeded monthly labels (`format(subMonths(today, i), 'MMM')`). -/
def monthlyLabels (today : CalDate) : List String :=
  (List.range 12).map (fun i => fmtMMM (subMonths today i))

/-- `getMonthlySalesData`, after the fetch. -/
def getMonthlySalesData (today : CalDate) (bills : List Bill) : List SalesDataPoint :=
  (toPoints (bucketize monthKey (seedZeros (monthlyLabels today)) bills)).reverse

/-- The yearly bucket key of a bill: the year number alone
(`format(new Date(bill.created_at), 'yyyy')`). -/
def yearKey (b : Bill) : Nat :=
  b.created_at.year

/-- The 5 seeded years (`format(subYears(today, i), 'yyyy')` for
`i = 0 .. 4`; `subYears` leaves the year component at `year - i`). -/
def seededYears (today : CalDate) : List Nat :=
  (List.range 5).map (fun i => today.year - i)

/-- Ascending comparison on record entries keyed by year numbers, the order
in which `Object.entries` enumerates array-index-like keys. -/
def byYear (p q : Nat × Int) : Bool :=
  p.1 ≤ q.1

/-- `getYearlySalesData`, after the fetch.  The record keys here are the
strings `format(date, 'yyyy')`; for years 1000-9999 these are canonical
numeric strings, i.e. ECMAScript array indices, so `Object.entries`
enumerates them in ascending numeric order (not insertion order).  The
record is therefore modelled keyed by the year number and its entries
are sorted ascending before the final `.map(...).reverse()`. -/
def getYearlySalesData (today : CalDate) (bills : List Bill) : List SalesDataPoint :=
  let totals := bucketize yearKey (seedZeros (seededYears today)) bills
  let entries := totals.mergeSort byYear
  ((entries.map (fun p => SalesDataPoint.mk (pad4 p.1) p.2))).reverse

/-! ## Aggregation lemmas -/
/-- The bucket keys of `bills` that are not already in `seen`, in first
occurrence order, starting from accumulator `acc`. -/
def newKeysFrom {κ : Type} [DecidableEq κ] (key : Bill → κ) (seen acc : List κ)
    (bills : List Bill) : List κ :=
  bills.foldl (fun ks b => if key b ∈ seen ++ ks then ks else ks ++ [key b]) acc

/-- The extra bucket keys that the aggregation loop appends after the
seeded window: the bucket keys of `bills` outside `seen`, in first
occurrence order. -/
def newKeys {κ : Type} [DecidableEq κ] (key : Bill → κ) (seen : List κ)
    (bills : List Bill) : List κ :=
  newKeysFrom key seen [] bills

/-- A row of the `products` table as selected by `getDashboardStats`
(`stock, low_stock_threshold`); `Option` models columns that can be null
or non-numeric (the source guards with `typeof ... === "number"`). -/
structure StockRow where
  stock : Option Int
  low_stock_threshold : Option Int
deriving DecidableEq, Repr

/-- The low-stock predicate of `getDashboardStats`. -/
def isLowStock (p : StockRow) : Bool :=
  match p.stock, p.low_stock_threshold with
  | some s, some t => decide (s ≤ t) && decide (0 < s)
  | _, _ => false

/-- The out-of-stock predicate of `getDashboardStats`. -/
def isOutOfStock (p : StockRow) : Bool :=
  match p.stock with
  | some s => decide (s = 0)
  | none => false

/-- `lowStockItems` count of `getDashboardStats`. -/
def lowStockItems (products : List StockRow) : Nat :=
  (products.filter isLowStock).length

/-- `outOfStockItems` count of `getDashboardStats`. -/
def outOfStockItems (products : List StockRow) : Nat :=
  (products.filter isOutOfStock).length

/-- The output shape of the four time-bucket aggregators: each returns one
entry per seeded label plus one entry per distinct out-of-window bucket
label of the input; daily/weekly/monthly seeded buckets appear
oldest-to-newest after any extra buckets (monthly never has extras for
valid dates), while the yearly output is ordered by descending year; an
empty input yields exactly the seeded window, all sums zero. -/
def C1Shape (today : CalDate) (bills : List Bill) : Prop :=
  ((getDailySalesData today bills).map SalesDataPoint.label
      = (newKeys dayKey (dailyLabels today) bills).reverse ++ (dailyLabels today).reverse)
  ∧ ((getWeeklySalesData today bills).map SalesDataPoint.label
      = (newKeys weekKey (weeklyLabels today) bills).reverse ++ (weeklyLabels today).reverse)
  ∧ ((getMonthlySalesData today bills).map SalesDataPoint.label = (monthlyLabels today).reverse)
  ∧ ((getYearlySalesData today bills).map SalesDataPoint.label
      = (((seededYears today ++ newKeys yearKey (seededYears today) bills).mergeSort
          (fun a b => a ≤ b)).map pad4).reverse)
  ∧ ((getDailySalesData today bills).length
      = 30 + (newKeys dayKey (dailyLabels today) bills).length)
  ∧ ((getWeeklySalesData today bills).length
      = 12 + (newKeys weekKey (weeklyLabels today) bills).length)
  ∧ ((getMonthlySalesData today bills).length = 12)
  ∧ ((getYearlySalesData today bills).length
      = 5 + (newKeys yearKey (seededYears today) bills).length)
  ∧ (bills = [] →
      getDailySalesData today [] = (dailyLabels today).reverse.map (fun l => ⟨l, 0⟩)
      ∧ getWeeklySalesData today [] = (weeklyLabels today).reverse.map (fun l => ⟨l, 0⟩)
      ∧ getMonthlySalesData today [] = (monthlyLabels today).reverse.map (fun l => ⟨l, 0⟩)
      ∧ getYearlySalesData today []
          = [⟨pad4 today.year, 0⟩, ⟨pad4 (today.year - 1), 0⟩, ⟨pad4 (today.year - 2), 0⟩,
              ⟨pad4 (today.year - 3), 0⟩, ⟨pad4 (today.year - 4), 0⟩])

/-! ## SalesReport component (generateSalesData, argmax, filtering) -/
/-- The product record carried (denormalized) on a bill line item
(`item.product`); `Option` fields model properties that may be absent
(the source reads them with `|| '...'` / `|| 0` fallbacks). -/
structure Product where
  id : String
  name : String
  category : Option String
  brand : Option String
  buyingPrice : Option Int
deriving DecidableEq, Repr

/-- A bill line item as consumed by `generateSalesData`
(`BillItemWithProduct`): the product reference may be missing. -/
structure BillItemWithProduct where
  product : Option Product
  productPrice : Int
  quantity : Int
deriving DecidableEq, Repr

/-- A bill with its items (`BillWithItems`).  `createdAt` is the creation
instant (the source compares `new Date(bill.createdAt)` against
`startOfDay(dateRange.from)` / `endOfDay(dateRange.to)`; instants are
modelled as naturals and the two range bounds are passed as instants).
`items` is `Option` because the source guards with
`bill.items && Array.isArray(bill.items)`. -/
structure BillWithItems where
  createdAt : Nat
  items : Option (List BillItemWithProduct)
deriving DecidableEq, Repr

/-- The per-product accumulator row (`interface ProductSalesSummary`). -/
structure ProductSalesSummary where
  id : String
  name : String
  category : String
  brand : String
  totalQuantity : Int
  buyingPrice : Int
  sellingPrice : Int
  totalRevenue : Int
  totalProfit : Int
  lastSoldAt : Nat
deriving DecidableEq, Repr

/-- The body of the inner `bill.items.forEach(item => ...)` of
`generateSalesData`: skip items without a product; on first sight of a
product id seed the accumulator (including `lastSoldAt`), on repeat add
to the three running totals only.  The `Map` is insertion-ordered; an
update mutates the held entry in place. -/
def applyItem (createdAt : Nat) (m : List (String × ProductSalesSummary))
    (item : BillItemWithProduct) : List (String × ProductSalesSummary) :=
  match item.product with
  | none => m
  | some prod =>
    let buyingPrice := prod.buyingPrice.getD 0
    let sellingPrice := item.productPrice
    let quantity := item.quantity
    match rlookup m prod.id with
    | some existingProduct =>
        rset m prod.id
          { existingProduct with
              totalQuantity := existingProduct.totalQuantity + quantity,
              totalRevenue := existingProduct.totalRevenue + sellingPrice * quantity,
              totalProfit := existingProduct.totalProfit
                + (sellingPrice - buyingPrice) * quantity }
    | none =>
        rset m prod.id
          { id := prod.id, name := prod.name,
            category := prod.category.getD "Uncategorized",
            brand := prod.brand.getD "Unknown",
            totalQuantity := quantity,
            buyingPrice := buyingPrice, sellingPrice := sellingPrice,
            totalRevenue := sellingPrice * quantity,
            totalProfit := (sellingPrice - buyingPrice) * quantity,
            lastSoldAt := createdAt }

/-- The body of the outer `filteredBills.forEach(bill => ...)`. -/
def applyBill (m : List (String × ProductSalesSummary)) (bill : BillWithItems) :
    List (String × ProductSalesSummary) :=
  match bill.items with
  | some items => items.foldl (applyItem bill.createdAt) m
  | none => m

/-- The date-range predicate of `generateSalesData`
(`billDate >= startOfDay(dateRange.from) && billDate <= endOfDay(dateRange.to)`,
with the two bounds passed as the instants `lo` and `hi`). -/
def inDateRange (lo hi : Nat) (b : BillWithItems) : Bool :=
  decide (lo ≤ b.createdAt) && decide (b.createdAt ≤ hi)

/-- Argmax by quantity: `details.length > 0 ?
[...details].sort((a, b) => b.totalQuantity - a.totalQuantity)[0] : null`.
`Array.prototype.sort` is modelled by a stable merge sort with the
comparator's ordering (descending by the target field). -/
def mostSellingProduct (details : List ProductSalesSummary) : Option ProductSalesSummary :=
  if details.isEmpty then none
  else (details.mergeSort (fun a b => b.totalQuantity ≤ a.totalQuantity)).head?

/-- Argmax by profit, same construction. -/
def mostProfitableProduct (details : List ProductSalesSummary) : Option ProductSalesSummary :=
  if details.isEmpty then none
  else (details.mergeSort (fun a b => b.totalProfit ≤ a.totalProfit)).head?

/-- The deterministic part of the view-model assembled by
`generateSalesData` (the chart fields it spreads in from
`generateSampleSalesData()` are random sample data and are not part of
any claim, so they are omitted from the embedding). -/
structure SalesReportData where
  productSalesDetails : List ProductSalesSummary
  mostSellingProduct : Option ProductSalesSummary
  mostProfitableProduct : Option ProductSalesSummary
  recentTransactions : List BillWithItems
deriving Repr

/-- `generateSalesData` of the SalesReport component: filter to the active
date range, fold every line item into the per-product map, and derive the
two argmax facts. -/
def generateSalesData (lo hi : Nat) (bills : List BillWithItems) : SalesReportData :=
  let filteredBills := bills.filter (inDateRange lo hi)
  let productSalesMap := filteredBills.foldl applyBill []
  let productSalesDetails := productSalesMap.map (fun p => p.2)
  { productSalesDetails := productSalesDetails,
    mostSellingProduct := mostSellingProduct productSalesDetails,
    mostProfitableProduct := mostProfitableProduct productSalesDetails,
    recentTransactions := filteredBills }

/-- Character-list prefix test (used to model `String.includes`). -/
def listStartsWith : List Char → List Char → Bool
  | _, [] => true
  | [], _ :: _ => false
  | a :: s, b :: pat => a == b && listStartsWith s pat

/-- Character-list substring test. -/
def listHasInfix : List Char → List Char → Bool
  | [], pat => pat.isEmpty
  | a :: s, pat => listStartsWith (a :: s) pat || listHasInfix s pat

/-- JS `String.prototype.includes`: substring containment. -/
def strIncludes (s pat : String) : Bool :=
  listHasInfix s.data pat.data

/-- JS `String.prototype.toLowerCase`, character by character (the
reporting data is ASCII; locale-specific Unicode case folding is out of
scope). -/
def jsToLower (s : String) : String :=
  ⟨s.data.map Char.toLower⟩

/-- `getFilteredProductSales`: the three client-side filters applied
conjunctively over the fetched detail set (empty when no report data is
loaded). -/
def getFilteredProductSales (reportData : Option SalesReportData)
    (selectedCategory selectedBrand searchQuery : String) : List ProductSalesSummary :=
  match reportData with
  | none => []
  | some rd =>
    rd.productSalesDetails.filter (fun product =>
      let matchesCategory := selectedCategory == "all" || product.category == selectedCategory
      let matchesBrand := selectedBrand == "all" || product.brand == selectedBrand
      let matchesSearch := searchQuery == ""
        || strIncludes (jsToLower product.name) (jsToLower searchQuery)
        || strIncludes (jsToLower product.id) (jsToLower searchQuery)
      matchesCategory && matchesBrand && matchesSearch)

/-- Result shape of the `getSalesData(dateRange)` fetch (its implementing
code is not part of the reporting files; only the fields the component
reads are modelled, as abstract payloads). -/
structure FetchedSalesData where
  categoryDistribution : List (String × Int)
  topProducts : List (String × Int)
  recentTransactions : List BillWithItems
  productSalesDetails : List ProductSalesSummary
  mostSellingProduct : Option ProductSalesSummary
  mostProfitableProduct : Option ProductSalesSummary
deriving Repr

/-- The merged view model the component stores with `setReportData`. -/
structure SalesReportViewModel where
  dailySales : List SalesDataPoint
  weeklySales : List SalesDataPoint
  monthlySales : List SalesDataPoint
  yearlySales : List SalesDataPoint
  categoryDistribution : List (String × Int)
  topProducts : List (String × Int)
  recentTransactions : List BillWithItems
  productSalesDetails : List ProductSalesSummary
  mostSellingProduct : Option ProductSalesSummary
  mostProfitableProduct : Option ProductSalesSummary
deriving Repr

/-- The component state touched by `fetchData` (`isLoading`, `reportData`,
`loadError`). -/
structure SalesReportState where
  isLoading : Bool
  reportData : Option SalesReportViewModel
  loadError : Option String
deriving Repr

/-- The refresh procedure `fetchData` of the SalesReport component as a
state transition: set loading, clear the error, await the five concurrent
fetches with `Promise.all` (which rejects as soon as any one rejects),
and only on success of all five replace the view model in one
`setReportData` call; on any failure the catch block sets the error
message and the previous `reportData` is never touched.  Each fetch
outcome is passed as an `Except` value. -/
def fetchData (prev : SalesReportState)
    (dailyData weeklyData monthlyData yearlyData : Except String (List SalesDataPoint))
    (salesData : Except String FetchedSalesData) : SalesReportState :=
  let st := { prev with isLoading := true, loadError := none }
  match dailyData, weeklyData, monthlyData, yearlyData, salesData with
  | .ok d, .ok w, .ok m, .ok y, .ok s =>
      { isLoading := false,
        reportData := some
          { dailySales := d, weeklySales := w, monthlySales := m, yearlySales := y,
            categoryDistribution := s.categoryDistribution,
            topProducts := s.topProducts,
            recentTransactions := s.recentTransactions,
            productSalesDetails := s.productSalesDetails,
            mostSellingProduct := s.mostSellingProduct,
            mostProfitableProduct := s.mostProfitableProduct },
        loadError := none }
  | _, _, _, _, _ =>
      { isLoading := false,
        reportData := st.reportData,
        loadError := some "Failed to fetch sales data. Please try again later." }

/-! ## supabase client wrapper (session helpers) -/
/-- An authenticated session as far as the wrapper observes it. -/
structure Session where
  user_id : String
deriving DecidableEq, Repr

/-- One outcome of an awaited `supabase.auth` call.  The generated
supabase client returns `{ data: { session }, error }` where a non-null
`error` comes with a null `session` (the response type is a disjoint
union), or the awaited promise throws. -/
inductive AuthOutcome where
  | success (session : Option Session)
  | failure (msg : String)
  | thrown (msg : String)
deriving DecidableEq, Repr

/-- `checkActiveSession`: explicit error check, then `!!data.session`;
exceptions are caught and yield `false`. -/
def checkActiveSession : AuthOutcome → Bool
  | .success s => s.isSome
  | .failure _ => false
  | .thrown _ => false

/-- `refreshSession`: returns `!!data.session` (no explicit error branch;
on a typed error `data.session` is null so the result is `false`);
exceptions are caught and yield `false`. -/
def refreshSession : AuthOutcome → Bool
  | .success s => s.isSome
  | .failure _ => false
  | .thrown _ => false

/-- Does a line item reference product `pid`? -/
def itemMatches (pid : String) (it : BillItemWithProduct) : Bool :=
  match it.product with
  | some p => p.id = pid
  | none => false

/-- The line items of one bill that reference product `pid`. -/
def linesFor (pid : String) (b : BillWithItems) : List BillItemWithProduct :=
  (b.items.getD []).filter (itemMatches pid)

/-- All line items for product `pid` across the in-range bills, in
processing order. -/
def soldLines (lo hi : Nat) (pid : String) (bills : List BillWithItems) :
    List BillItemWithProduct :=
  ((bills.filter (inDateRange lo hi)).map (linesFor pid)).flatten

/-- Buying price of a line item's product (`item.product.buyingPrice || 0`). -/
def itemBuyingPrice (it : BillItemWithProduct) : Int :=
  match it.product with
  | some p => p.buyingPrice.getD 0
  | none => 0

/-- Total quantity over a list of line items. -/
def qtyOf (l : List BillItemWithProduct) : Int :=
  (l.map (fun it => it.quantity)).sum

/-- Total revenue (price times quantity) over a list of line items. -/
def revOf (l : List BillItemWithProduct) : Int :=
  (l.map (fun it => it.productPrice * it.quantity)).sum

/-- Total profit ((price minus buying cost) times quantity) over a list
of line items. -/
def profOf (l : List BillItemWithProduct) : Int :=
  (l.map (fun it => (it.productPrice - itemBuyingPrice it) * it.quantity)).sum

/-- The first in-range bill (in input order) containing a line item for
product `pid` — the bill whose `createdAt` the accumulator stores as
`lastSoldAt`. -/
def firstSaleBill (lo hi : Nat) (pid : String) (bills : List BillWithItems) :
    Option BillWithItems :=
  (bills.filter (inDateRange lo hi)).find? (fun b => !(linesFor pid b).isEmpty)

/-- Sample product used by the concrete report-component checks. -/
def sampleProduct : Product := ⟨"P1", "Product 1", some "Cat", some "B", some 30⟩

/-- Two sample bills selling `sampleProduct`: qty 3 at price 50 (instant 1)
and qty 2 at price 50 (instant 2) — the spec's running example. -/
def sampleBills : List BillWithItems :=
  [⟨1, some [⟨some sampleProduct, 50, 3⟩]⟩, ⟨2, some [⟨some sampleProduct, 50, 2⟩]⟩]

/-- Sample rows used to witness the argmax and filter theorems. -/
def psA : ProductSalesSummary :=
  ⟨"1", "Smartphone X", "Electronics", "TechBrand", 5, 15, 20, 100, 25, 3⟩

/-- A second sample row with a higher quantity and lower profit. -/
def psB : ProductSalesSummary :=
  ⟨"2", "Laptop Pro", "Electronics", "ComputerCo", 9, 45, 65, 585, 180, 7⟩

/-! ## Theorems -/

section RecordLemmas

variable {κ ν : Type} [DecidableEq κ]

theorem find?_isSome_iff_mem_rkeys (m : List (κ × ν)) (k : κ) :
    (m.find? (fun p => p.1 = k)).isSome = true ↔ k ∈ rkeys m := by
  rw [List.find?_isSome]
  constructor
  · rintro ⟨p, hp, hk⟩
    simp only [decide_eq_true_eq] at hk
    exact hk ▸ List.mem_map_of_mem Prod.fst hp
  · intro hk
    rcases List.mem_map.mp hk with ⟨p, hp, hk⟩
    exact ⟨p, hp, by simp [hk]⟩

theorem rkeys_rset_mem (m : List (κ × ν)) (k : κ) (v : ν) (h : k ∈ rkeys m) :
    rkeys (rset m k v) = rkeys m := by
  rw [rset, if_pos ((find?_isSome_iff_mem_rkeys m k).mpr h)]
  unfold rkeys
  rw [List.map_map]
  apply List.map_congr_left
  intro p _
  by_cases hp : p.1 = k <;> simp [hp]

theorem rkeys_rset_fresh (m : List (κ × ν)) (k : κ) (v : ν) (h : k ∉ rkeys m) :
    rkeys (rset m k v) = rkeys m ++ [k] := by
  rw [rset, if_neg]
  · simp [rkeys]
  · intro hs
    exact h ((find?_isSome_iff_mem_rkeys m k).mp hs)

theorem rkeys_radd_mem (m : List (κ × Int)) (k : κ) (v : Int) (h : k ∈ rkeys m) :
    rkeys (radd m k v) = rkeys m :=
  rkeys_rset_mem m k _ h

theorem rkeys_radd_fresh (m : List (κ × Int)) (k : κ) (v : Int) (h : k ∉ rkeys m) :
    rkeys (radd m k v) = rkeys m ++ [k] :=
  rkeys_rset_fresh m k _ h

theorem nodup_rkeys_rset (m : List (κ × ν)) (k : κ) (v : ν)
    (h : (rkeys m).Nodup) : (rkeys (rset m k v)).Nodup := by
  by_cases hk : k ∈ rkeys m
  · rw [rkeys_rset_mem m k v hk]; exact h
  · rw [rkeys_rset_fresh m k v hk]
    simpa [List.nodup_append] using ⟨h, fun hx => hk hx⟩

theorem nodup_rkeys_seedZeros (ks : List κ) : (rkeys (seedZeros ks)).Nodup := by
  unfold seedZeros
  suffices h : ∀ m : List (κ × Int), (rkeys m).Nodup →
      (rkeys (ks.foldl (fun m k => rset m k 0) m)).Nodup by
    exact h [] (by simp [rkeys])
  induction ks with
  | nil => intro m hm; exact hm
  | cons k ks ih =>
    intro m hm
    exact ih _ (nodup_rkeys_rset m k 0 hm)

theorem rlookup_nil (k : κ) : rlookup ([] : List (κ × ν)) k = none := rfl

theorem rlookup_cons_of_pos (p : κ × ν) (m : List (κ × ν)) (k : κ) (hp : p.1 = k) :
    rlookup (p :: m) k = some p.2 := by
  unfold rlookup
  rw [List.find?_cons_of_pos _ (by simp [hp])]
  rfl

theorem rlookup_cons_of_neg (p : κ × ν) (m : List (κ × ν)) (k : κ) (hp : p.1 ≠ k) :
    rlookup (p :: m) k = rlookup m k := by
  unfold rlookup
  rw [List.find?_cons_of_neg _ (by simp [hp])]

theorem rset_nil (k : κ) (v : ν) : rset ([] : List (κ × ν)) k v = [(k, v)] := rfl

theorem rset_cons_of_neg (p : κ × ν) (m : List (κ × ν)) (k : κ) (v : ν)
    (hp : p.1 ≠ k) : rset (p :: m) k v = p :: rset m k v := by
  unfold rset
  rw [List.find?_cons_of_neg _ (by simp [hp])]
  split
  · rw [List.map_cons, if_neg hp]
  · rfl

theorem rset_cons_of_pos (p : κ × ν) (m : List (κ × ν)) (k : κ) (v : ν)
    (hp : p.1 = k) :
    rset (p :: m) k v = (k, v) :: m.map (fun q => if q.1 = k then (k, v) else q) := by
  unfold rset
  rw [if_pos (by rw [List.find?_cons_of_pos _ (by simp [hp])]; rfl)]
  rw [List.map_cons, if_pos hp]

theorem rvalues_seedZeros_all_zero (ks : List κ) :
    ∀ v ∈ rvalues (seedZeros ks), v = 0 := by
  unfold seedZeros
  suffices h : ∀ m : List (κ × Int), (∀ v ∈ rvalues m, v = 0) →
      ∀ v ∈ rvalues (ks.foldl (fun m k => rset m k 0) m), v = 0 by
    exact h [] (by simp [rvalues])
  induction ks with
  | nil => intro m hm; exact hm
  | cons k ks ih =>
    intro m hm
    refine ih (rset m k 0) ?_
    intro v hv
    simp only [rset] at hv
    split at hv
    · rcases List.mem_map.mp hv with ⟨p, hp, hpe⟩
      rcases List.mem_map.mp hp with ⟨q, hq, hqe⟩
      by_cases hqk : q.1 = k
      · rw [if_pos hqk] at hqe
        rw [← hqe] at hpe
        simpa using hpe.symm
      · rw [if_neg hqk] at hqe
        exact hm v (hpe ▸ hqe ▸ List.mem_map_of_mem Prod.snd hq)
    · rcases List.mem_map.mp hv with ⟨p, hp, hpe⟩
      rcases List.mem_append.mp hp with hp | hp
      · exact hm v (hpe ▸ List.mem_map_of_mem Prod.snd hp)
      · simp only [List.mem_singleton] at hp
        subst hp; simpa using hpe.symm

theorem sum_rvalues_seedZeros (ks : List κ) : (rvalues (seedZeros ks)).sum = 0 :=
  List.sum_eq_zero (rvalues_seedZeros_all_zero ks)

theorem rlookup_eq_none_iff (m : List (κ × ν)) (k : κ) :
    rlookup m k = none ↔ k ∉ rkeys m := by
  rw [← find?_isSome_iff_mem_rkeys]
  unfold rlookup
  cases m.find? (fun p => p.1 = k) <;> simp

theorem rlookup_rset_self (m : List (κ × ν)) (k : κ) (v : ν) :
    rlookup (rset m k v) k = some v := by
  induction m with
  | nil => rw [rset_nil, rlookup_cons_of_pos _ _ _ rfl]
  | cons p m ih =>
    by_cases hp : p.1 = k
    · rw [rset_cons_of_pos p m k v hp, rlookup_cons_of_pos _ _ _ rfl]
    · rw [rset_cons_of_neg p m k v hp, rlookup_cons_of_neg p _ k hp]
      exact ih

theorem rlookup_radd_self (m : List (κ × Int)) (k : κ) (v : Int) :
    rlookup (radd m k v) k = some ((rlookup m k).getD 0 + v) :=
  rlookup_rset_self m k _

theorem rlookup_update_other (m : List (κ × ν)) (k k' : κ) (w : ν) (h : k' ≠ k) :
    rlookup (m.map (fun q => if q.1 = k then (k, w) else q)) k' = rlookup m k' := by
  induction m with
  | nil => rfl
  | cons q m ih =>
    rw [List.map_cons]
    by_cases hq : q.1 = k
    · rw [if_pos hq, rlookup_cons_of_neg _ _ _ (by simpa using Ne.symm h),
          rlookup_cons_of_neg _ _ _ (by rw [hq]; exact Ne.symm h)]
      exact ih
    · rw [if_neg hq]
      by_cases hq' : q.1 = k'
      · rw [rlookup_cons_of_pos _ _ _ hq', rlookup_cons_of_pos _ _ _ hq']
      · rw [rlookup_cons_of_neg _ _ _ hq', rlookup_cons_of_neg _ _ _ hq']
        exact ih

theorem rlookup_rset_other (m : List (κ × ν)) (k k' : κ) (v : ν) (h : k' ≠ k) :
    rlookup (rset m k v) k' = rlookup m k' := by
  unfold rset
  split
  · exact rlookup_update_other m k k' v h
  · unfold rlookup
    rw [List.find?_append]
    have hsingle : List.find? (fun p => p.1 = k') [(k, v)] = none := by
      simp [List.find?, Ne.symm h]
    rw [hsingle]
    cases m.find? (fun p => p.1 = k') <;> simp

theorem rlookup_radd_other (m : List (κ × Int)) (k k' : κ) (v : Int) (h : k' ≠ k) :
    rlookup (radd m k v) k' = rlookup m k' :=
  rlookup_rset_other m k k' _ h

theorem rlookup_seedZeros_of_mem (ks : List κ) (k : κ) (h : k ∈ rkeys (seedZeros ks)) :
    rlookup (seedZeros ks) k = some 0 := by
  have hs : (seedZeros ks |>.find? (fun p => p.1 = k)).isSome = true :=
    (find?_isSome_iff_mem_rkeys _ k).mpr h
  unfold rlookup
  cases hf : (seedZeros ks).find? (fun p => p.1 = k) with
  | none => rw [hf] at hs; simp at hs
  | some p =>
    have hp : p ∈ seedZeros ks := List.mem_of_find?_eq_some hf
    have : p.2 = 0 := rvalues_seedZeros_all_zero ks p.2 (List.mem_map_of_mem Prod.snd hp)
    simp [this]

theorem mem_rkeys_seedZeros (ks : List κ) (k : κ) : k ∈ rkeys (seedZeros ks) ↔ k ∈ ks := by
  unfold seedZeros
  suffices h : ∀ m : List (κ × Int), k ∈ rkeys (ks.foldl (fun m k => rset m k 0) m) ↔
      k ∈ rkeys m ∨ k ∈ ks by
    simpa [rkeys] using h []
  induction ks with
  | nil => intro m; simp
  | cons a ks ih =>
    intro m
    rw [List.foldl_cons, ih]
    constructor
    · rintro (h | h)
      · by_cases ha : a ∈ rkeys m
        · rw [rkeys_rset_mem m a 0 ha] at h; exact Or.inl h
        · rw [rkeys_rset_fresh m a 0 ha] at h
          rcases List.mem_append.mp h with h | h
          · exact Or.inl h
          · simp only [List.mem_singleton] at h; exact Or.inr (by simp [h])
      · exact Or.inr (List.mem_cons_of_mem a h)
    · rintro (h | h)
      · left
        by_cases ha : a ∈ rkeys m
        · rwa [rkeys_rset_mem m a 0 ha]
        · rw [rkeys_rset_fresh m a 0 ha]; exact List.mem_append_left _ h
      · rcases List.mem_cons.mp h with h | h
        · subst h
          left
          by_cases ha : k ∈ rkeys m
          · rwa [rkeys_rset_mem m k 0 ha]
          · rw [rkeys_rset_fresh m k 0 ha]; simp
        · exact Or.inr h

theorem seedZeros_eq_map_of_nodup (ks : List κ) (h : ks.Nodup) :
    seedZeros ks = ks.map (fun k => (k, (0 : Int))) := by
  unfold seedZeros
  suffices hgen : ∀ m : List (κ × Int), (∀ k ∈ ks, k ∉ rkeys m) →
      ks.foldl (fun m k => rset m k 0) m = m ++ ks.map (fun k => (k, (0 : Int))) by
    simpa using hgen [] (by simp [rkeys])
  induction ks with
  | nil => intro m _; simp
  | cons a ks ih =>
    intro m hm
    have hnd := h
    rw [List.nodup_cons] at hnd
    rw [List.foldl_cons, rset, if_neg]
    · rw [ih hnd.2 _ ?fresh]
      · simp
      case fresh =>
        intro k hk
        rw [rkeys]
        rw [List.map_append]
        intro hmem
        rcases List.mem_append.mp hmem with hmem | hmem
        · exact hm k (List.mem_cons_of_mem a hk) hmem
        · simp only [List.map_cons, List.map_nil, List.mem_singleton] at hmem
          exact hnd.1 (hmem ▸ hk)
    · intro hs
      exact hm a (List.mem_cons_self a ks) ((find?_isSome_iff_mem_rkeys m a).mp hs)

theorem rkeys_seedZeros_of_nodup (ks : List κ) (h : ks.Nodup) :
    rkeys (seedZeros ks) = ks := by
  rw [seedZeros_eq_map_of_nodup ks h]
  simp [rkeys, Function.comp_def]

theorem rset_update_map_id (m : List (κ × ν)) (k : κ) (v : ν) (h : k ∉ rkeys m) :
    m.map (fun p => if p.1 = k then (k, v) else p) = m := by
  have hcong : ∀ p ∈ m, (if p.1 = k then (k, v) else p) = id p := by
    intro p hp
    have : p.1 ≠ k := fun he => h (he ▸ List.mem_map_of_mem Prod.fst hp)
    simp [this]
  rw [List.map_congr_left hcong, List.map_id]

theorem sum_rvalues_update_of_nodup (m : List (κ × Int)) (k : κ) (w : Int)
    (h : (rkeys m).Nodup) (hk : k ∈ rkeys m) :
    (rvalues (m.map (fun p => if p.1 = k then (k, w) else p))).sum
      = (rvalues m).sum + w - (rlookup m k).getD 0 := by
  induction m with
  | nil => simp [rkeys] at hk
  | cons p m ih =>
    rw [rkeys, List.map_cons, List.nodup_cons] at h
    by_cases hp : p.1 = k
    · have hnm : k ∉ rkeys m := hp ▸ h.1
      rw [rlookup_cons_of_pos p m k hp]
      rw [List.map_cons, if_pos hp, rset_update_map_id m k w hnm]
      simp only [rvalues, List.map_cons, List.sum_cons, Option.getD_some]
      ring
    · have hkm : k ∈ rkeys m := by
        rcases List.mem_map.mp hk with ⟨q, hq, hqe⟩
        rcases List.mem_cons.mp hq with hq | hq
        · exact absurd (hq ▸ hqe) hp
        · exact hqe ▸ List.mem_map_of_mem Prod.fst hq
      rw [rlookup_cons_of_neg p m k hp]
      rw [List.map_cons, if_neg hp]
      simp only [rvalues, List.map_cons, List.sum_cons] at *
      rw [ih h.2 hkm]
      ring

theorem sum_rvalues_radd (m : List (κ × Int)) (k : κ) (v : Int)
    (h : (rkeys m).Nodup) : (rvalues (radd m k v)).sum = (rvalues m).sum + v := by
  unfold radd rset
  split
  case isTrue hs =>
    have hk : k ∈ rkeys m := (find?_isSome_iff_mem_rkeys m k).mp hs
    rw [sum_rvalues_update_of_nodup m k _ h hk]
    have : ∃ w, rlookup m k = some w := by
      rcases (rlookup_eq_none_iff m k) with ⟨h1, h2⟩
      cases hlo : rlookup m k
      · exact absurd hk (h1 hlo)
      · exact ⟨_, rfl⟩
    rcases this with ⟨w, hw⟩
    rw [hw]
    simp
    ring
  case isFalse hs =>
    have hk : k ∉ rkeys m := fun hh => hs ((find?_isSome_iff_mem_rkeys m k).mpr hh)
    have hn : rlookup m k = none := (rlookup_eq_none_iff m k).mpr hk
    rw [hn]
    simp [rvalues]

end RecordLemmas

/-! ## Calendar lemmas -/
theorem daysInMonth_pos (y m : Nat) : 1 ≤ daysInMonth y m := by
  unfold daysInMonth
  rcases m with _|_|_|_|_|_|_|_|_|_|_|_|_|m <;> simp <;> split <;> omega

theorem daysInMonth_le_31 (y m : Nat) : daysInMonth y m ≤ 31 := by
  unfold daysInMonth
  rcases m with _|_|_|_|_|_|_|_|_|_|_|_|_|m <;> simp <;> split <;> omega

theorem daysInMonth_le_succ_year (y y' mm : Nat) :
    daysInMonth y mm ≤ daysInMonth y' mm + (if mm = 2 then 1 else 0) := by
  unfold daysInMonth
  rcases mm with _|_|_|_|_|_|_|_|_|_|_|_|_|mm <;>
    simp <;> cases isLeapYear y <;> cases isLeapYear y' <;> simp

theorem leapsBefore_succ (n : Nat) :
    leapsBefore (n + 1) = leapsBefore n + (if isLeapYear (n + 1) then 1 else 0) := by
  unfold leapsBefore
  rw [Finset.sum_range_succ]

theorem leapsBefore_mono {n m : Nat} (h : n ≤ m) : leapsBefore n ≤ leapsBefore m := by
  unfold leapsBefore
  exact Finset.sum_le_sum_of_subset (Finset.range_subset.mpr h)

theorem daysBeforeMonth_one (y : Nat) : daysBeforeMonth y 1 = 0 := by
  unfold daysBeforeMonth
  simp

theorem daysBeforeMonth_step (y m : Nat) (h : 2 ≤ m) :
    daysBeforeMonth y m = daysBeforeMonth y (m - 1) + daysInMonth y (m - 1) := by
  unfold daysBeforeMonth
  have h1 : m - 1 = (m - 2) + 1 := by omega
  rw [h1, Finset.sum_range_succ]
  have h2 : m - 2 + 1 - 1 = m - 2 := by omega
  rw [h2]

theorem daysBeforeMonth_twelve (y : Nat) :
    daysBeforeMonth y 12 = 334 + (if isLeapYear y then 1 else 0) := by
  unfold daysBeforeMonth
  cases h : isLeapYear y <;>
    simp [Finset.sum_range_succ, daysInMonth, h]

theorem daysBeforeMonth_le_succ_year (y y' m : Nat) (hm : m ≤ 13) :
    daysBeforeMonth y m ≤ daysBeforeMonth y' m + 1 := by
  unfold daysBeforeMonth
  have hpt : ∀ k ∈ Finset.range (m - 1),
      daysInMonth y (k + 1) ≤ daysInMonth y' (k + 1) + (if k + 1 = 2 then 1 else 0) := by
    intro k _
    exact daysInMonth_le_succ_year y y' (k + 1)
  calc ∑ k ∈ Finset.range (m - 1), daysInMonth y (k + 1)
      ≤ ∑ k ∈ Finset.range (m - 1),
          (daysInMonth y' (k + 1) + (if k + 1 = 2 then 1 else 0)) := Finset.sum_le_sum hpt
    _ = (∑ k ∈ Finset.range (m - 1), daysInMonth y' (k + 1))
        + ∑ k ∈ Finset.range (m - 1), (if k + 1 = 2 then 1 else 0) := Finset.sum_add_distrib
    _ ≤ (∑ k ∈ Finset.range (m - 1), daysInMonth y' (k + 1)) + 1 := by
        have : (∑ k ∈ Finset.range (m - 1), (if k + 1 = 2 then 1 else 0))
            = ∑ k ∈ Finset.range (m - 1), (if k = 1 then 1 else 0) := by
          apply Finset.sum_congr rfl
          intro k _
          congr 1
          · simp only [eq_iff_iff]
            omega
        rw [this, Finset.sum_ite_eq' (Finset.range (m - 1)) 1 (fun _ => 1)]
        split <;> omega

theorem dayNumber_ge_365 (d : CalDate) (h : 2 ≤ d.year) : 365 ≤ dayNumber d := by
  unfold dayNumber
  have : 365 ≤ 365 * (d.year - 1) := by omega
  omega

theorem dayNumber_def (d : CalDate) :
    dayNumber d = 365 * (d.year - 1) + leapsBefore (d.year - 1)
      + daysBeforeMonth d.year d.month + (d.day - 1) := rfl

theorem dayNumber_mk (y m dd : Nat) :
    dayNumber ⟨y, m, dd⟩ = 365 * (y - 1) + leapsBefore (y - 1)
      + daysBeforeMonth y m + (dd - 1) := rfl

theorem valid_mk_iff (y m dd : Nat) :
    (CalDate.mk y m dd).Valid ↔
      (1 ≤ y ∧ 1 ≤ m ∧ m ≤ 12 ∧ 1 ≤ dd ∧ dd ≤ daysInMonth y m) := Iff.rfl

theorem prevDay_step (d : CalDate) (hv : d.Valid) (h1 : 1 ≤ dayNumber d) :
    (prevDay d).Valid ∧ dayNumber (prevDay d) + 1 = dayNumber d := by
  obtain ⟨hy, hm1, hm2, hd1, hd2⟩ := hv
  by_cases hday : 2 ≤ d.day
  · have hpd : prevDay d = ⟨d.year, d.month, d.day - 1⟩ := by
      unfold prevDay
      rw [if_pos hday]
    rw [hpd, valid_mk_iff, dayNumber_mk, dayNumber_def]
    refine ⟨⟨hy, hm1, hm2, by omega, by omega⟩, by omega⟩
  · have hd : d.day = 1 := by omega
    by_cases hmon : 2 ≤ d.month
    · have hpd : prevDay d = ⟨d.year, d.month - 1, daysInMonth d.year (d.month - 1)⟩ := by
        unfold prevDay
        rw [if_neg hday, if_pos hmon]
      have hdimpos := daysInMonth_pos d.year (d.month - 1)
      have hstep := daysBeforeMonth_step d.year d.month hmon
      rw [hpd, valid_mk_iff, dayNumber_mk, dayNumber_def]
      refine ⟨⟨hy, by omega, by omega, hdimpos, le_refl _⟩, by omega⟩
    · have hm : d.month = 1 := by omega
      have hpd : prevDay d = ⟨d.year - 1, 12, 31⟩ := by
        unfold prevDay
        rw [if_neg hday, if_neg hmon]
      have hnum : dayNumber d = 365 * (d.year - 1) + leapsBefore (d.year - 1) := by
        rw [dayNumber_def, hm, hd, daysBeforeMonth_one]
        omega
      have hy2 : 2 ≤ d.year := by
        rcases Nat.lt_or_ge d.year 2 with hlt | hge
        · exfalso
          have hyone : d.year = 1 := by omega
          rw [hyone] at hnum
          have hl0 : leapsBefore (1 - 1) = 0 := rfl
          omega
        · exact hge
      have h12 := daysBeforeMonth_twelve (d.year - 1)
      have hsucc : leapsBefore (d.year - 1)
          = leapsBefore (d.year - 2) + (if isLeapYear (d.year - 1) then 1 else 0) := by
        have hstep := leapsBefore_succ (d.year - 2)
        have he : d.year - 2 + 1 = d.year - 1 := by omega
        rwa [he] at hstep
      have hdim12 : daysInMonth (d.year - 1) 12 = 31 := rfl
      rw [hpd, valid_mk_iff, dayNumber_mk, hnum]
      have hsub : d.year - 1 - 1 = d.year - 2 := by omega
      rw [hsub, h12, hsucc, hdim12]
      refine ⟨⟨by omega, by omega, by omega, by omega, by omega⟩, by omega⟩

theorem subDays_step (d : CalDate) (hv : d.Valid) (n : Nat) (h : n ≤ dayNumber d) :
    (subDays d n).Valid ∧ dayNumber (subDays d n) = dayNumber d - n := by
  induction n with
  | zero => exact ⟨hv, by simp [subDays]⟩
  | succ n ih =>
    have hn : n ≤ dayNumber d := by omega
    obtain ⟨ihv, ihnum⟩ := ih hn
    have h1 : 1 ≤ dayNumber (subDays d n) := by omega
    have hstep := prevDay_step (subDays d n) ihv h1
    have happ : subDays d (n + 1) = prevDay (subDays d n) := by
      unfold subDays
      exact Function.iterate_succ_apply' prevDay n d
    rw [happ]
    exact ⟨hstep.1, by omega⟩

theorem monthDay_ne_of_year_gap (a b : CalDate) (ha : a.Valid) (hb : b.Valid)
    (hne : dayNumber a ≠ dayNumber b)
    (hgap1 : dayNumber a < dayNumber b + 354) (hgap2 : dayNumber b < dayNumber a + 354) :
    a.month ≠ b.month ∨ a.day ≠ b.day := by
  by_contra hc
  push_neg at hc
  obtain ⟨hmeq, hdeq⟩ := hc
  obtain ⟨hay, ham1, ham2, had1, had2⟩ := ha
  obtain ⟨hby, hbm1, hbm2, hbd1, hbd2⟩ := hb
  by_cases hyeq : a.year = b.year
  · apply hne
    unfold dayNumber
    rw [hmeq, hdeq, hyeq]
  · have key : ∀ u v : CalDate, u.Valid → v.Valid → u.month = v.month → u.day = v.day →
        v.year + 1 ≤ u.year → dayNumber v + 354 ≤ dayNumber u := by
      intro u v hu hv hm hd hy
      obtain ⟨huy, hum1, hum2, hud1, hud2⟩ := hu
      obtain ⟨hvy, hvm1, hvm2, hvd1, hvd2⟩ := hv
      have hleaps : leapsBefore (v.year - 1) ≤ leapsBefore (u.year - 1) :=
        leapsBefore_mono (by omega)
      have hdbm : daysBeforeMonth v.year v.month ≤ daysBeforeMonth u.year v.month + 1 :=
        daysBeforeMonth_le_succ_year v.year u.year v.month (by omega)
      unfold dayNumber
      rw [hm, hd]
      omega
    rcases Nat.lt_or_ge a.year b.year with hlt | hge
    · have := key b a ⟨hby, hbm1, hbm2, hbd1, hbd2⟩ ⟨hay, ham1, ham2, had1, had2⟩
        hmeq.symm hdeq.symm (by omega)
      omega
    · have := key a b ⟨hay, ham1, ham2, had1, had2⟩ ⟨hby, hbm1, hbm2, hbd1, hbd2⟩
        hmeq hdeq (by omega)
      omega

theorem monthName_inj : ∀ m1, m1 < 13 → ∀ m2, m2 < 13 →
    monthName m1 = monthName m2 → m1 = m2 := by decide

theorem monthName_data_length (m : Nat) (h1 : 1 ≤ m) (h2 : m ≤ 12) :
    (monthName m).data.length = 3 := by
  have : ∀ m, m < 13 → 1 ≤ m → (monthName m).data.length = 3 := by decide
  exact this m (by omega) h1

theorem pad2_inj : ∀ d1, d1 < 32 → ∀ d2, d2 < 32 → pad2 d1 = pad2 d2 → d1 = d2 := by decide

theorem pad2_data_length (d : Nat) (h : d < 32) : (pad2 d).data.length = 2 := by
  have : ∀ d, d < 32 → (pad2 d).data.length = 2 := by decide
  exact this d h

theorem fmtMMMdd_inj (a b : CalDate) (ha : a.Valid) (hb : b.Valid)
    (h : fmtMMMdd a = fmtMMMdd b) : a.month = b.month ∧ a.day = b.day := by
  obtain ⟨hay, ham1, ham2, had1, had2⟩ := ha
  obtain ⟨hby, hbm1, hbm2, hbd1, hbd2⟩ := hb
  have hda : a.day < 32 := lt_of_le_of_lt had2 (by have := daysInMonth_le_31 a.year a.month; omega)
  have hdb : b.day < 32 := lt_of_le_of_lt hbd2 (by have := daysInMonth_le_31 b.year b.month; omega)
  have hdata : (monthName a.month).data ++ (" " ++ pad2 a.day).data
      = (monthName b.month).data ++ (" " ++ pad2 b.day).data := by
    have := congrArg String.data h
    simpa [fmtMMMdd, String.data_append, List.append_assoc] using this
  have hlen : (monthName a.month).data.length = (monthName b.month).data.length := by
    rw [monthName_data_length a.month ham1 ham2, monthName_data_length b.month hbm1 hbm2]
  obtain ⟨hmn, hrest⟩ := List.append_inj hdata hlen
  constructor
  · exact monthName_inj a.month (by omega) b.month (by omega) (String.ext hmn)
  · have hp : pad2 a.day = pad2 b.day := by
      have : (" " ++ pad2 a.day).data = (" " ++ pad2 b.day).data := hrest
      rw [String.data_append, String.data_append] at this
      exact String.ext (List.append_cancel_left this)
    exact pad2_inj a.day hda b.day hdb hp

theorem fmtddMMM_inj (a b : CalDate) (ha : a.Valid) (hb : b.Valid)
    (h : fmtddMMM a = fmtddMMM b) : a.month = b.month ∧ a.day = b.day := by
  obtain ⟨hay, ham1, ham2, had1, had2⟩ := ha
  obtain ⟨hby, hbm1, hbm2, hbd1, hbd2⟩ := hb
  have hda : a.day < 32 := lt_of_le_of_lt had2 (by have := daysInMonth_le_31 a.year a.month; omega)
  have hdb : b.day < 32 := lt_of_le_of_lt hbd2 (by have := daysInMonth_le_31 b.year b.month; omega)
  have hdata : (pad2 a.day).data ++ (" " ++ monthName a.month).data
      = (pad2 b.day).data ++ (" " ++ monthName b.month).data := by
    have := congrArg String.data h
    simpa [fmtddMMM, String.data_append, List.append_assoc] using this
  have hlen : (pad2 a.day).data.length = (pad2 b.day).data.length := by
    rw [pad2_data_length a.day hda, pad2_data_length b.day hdb]
  obtain ⟨hdd, hrest⟩ := List.append_inj hdata hlen
  constructor
  · have : (" " ++ monthName a.month).data = (" " ++ monthName b.month).data := hrest
    rw [String.data_append, String.data_append] at this
    exact monthName_inj a.month (by omega) b.month (by omega)
      (String.ext (List.append_cancel_left this))
  · exact pad2_inj a.day hda b.day hdb (String.ext hdd)

section AggregationLemmas

variable {κ : Type} [DecidableEq κ]

theorem newKeysFrom_acc (key : Bill → κ) (bills : List Bill) :
    ∀ seen acc, newKeysFrom key seen acc bills
      = acc ++ newKeysFrom key (seen ++ acc) [] bills := by
  induction bills with
  | nil => intro seen acc; simp [newKeysFrom]
  | cons b bills ih =>
    intro seen acc
    by_cases hmem : key b ∈ seen ++ acc
    · have l1 : newKeysFrom key seen acc (b :: bills) = newKeysFrom key seen acc bills := by
        unfold newKeysFrom
        rw [List.foldl_cons, if_pos hmem]
      have l2 : newKeysFrom key (seen ++ acc) [] (b :: bills)
          = newKeysFrom key (seen ++ acc) [] bills := by
        unfold newKeysFrom
        rw [List.foldl_cons, if_pos (by simpa using hmem)]
      rw [l1, l2, ih seen acc]
    · have l1 : newKeysFrom key seen acc (b :: bills)
          = newKeysFrom key seen (acc ++ [key b]) bills := by
        unfold newKeysFrom
        rw [List.foldl_cons, if_neg hmem]
      have l2 : newKeysFrom key (seen ++ acc) [] (b :: bills)
          = newKeysFrom key (seen ++ acc) [key b] bills := by
        unfold newKeysFrom
        rw [List.foldl_cons, if_neg (by simpa using hmem)]
        simp only [List.nil_append]
      rw [l1, l2, ih seen (acc ++ [key b]), ih (seen ++ acc) [key b]]
      have hassoc : seen ++ (acc ++ [key b]) = (seen ++ acc) ++ [key b] :=
        (List.append_assoc seen acc [key b]).symm
      rw [hassoc]
      simp [List.append_assoc]

theorem newKeys_cons_mem (key : Bill → κ) (seen : List κ) (b : Bill) (bills : List Bill)
    (h : key b ∈ seen) : newKeys key seen (b :: bills) = newKeys key seen bills := by
  unfold newKeys newKeysFrom
  rw [List.foldl_cons, if_pos (by simpa using h)]

theorem newKeys_cons_fresh (key : Bill → κ) (seen : List κ) (b : Bill) (bills : List Bill)
    (h : key b ∉ seen) :
    newKeys key seen (b :: bills) = key b :: newKeys key (seen ++ [key b]) bills := by
  have l1 : newKeys key seen (b :: bills) = newKeysFrom key seen [key b] bills := by
    unfold newKeys newKeysFrom
    rw [List.foldl_cons, if_neg (by simpa using h)]
    simp only [List.nil_append]
  rw [l1, newKeysFrom_acc key bills seen [key b]]
  rfl

theorem newKeys_eq_nil_of_covered (key : Bill → κ) (seen : List κ) (bills : List Bill)
    (h : ∀ b ∈ bills, key b ∈ seen) : newKeys key seen bills = [] := by
  induction bills with
  | nil => rfl
  | cons b bills ih =>
    rw [newKeys_cons_mem key seen b bills (h b (List.mem_cons_self b bills))]
    exact ih (fun b hb => h b (List.mem_cons_of_mem _ hb))

theorem rkeys_bucketize (key : Bill → κ) (bills : List Bill) :
    ∀ m : List (κ × Int), rkeys (bucketize key m bills)
      = rkeys m ++ newKeys key (rkeys m) bills := by
  induction bills with
  | nil => intro m; simp [bucketize, newKeys, newKeysFrom]
  | cons b bills ih =>
    intro m
    have hstep : bucketize key m (b :: bills) = bucketize key (radd m (key b) b.total) bills := rfl
    rw [hstep]
    by_cases hk : key b ∈ rkeys m
    · rw [ih, rkeys_radd_mem m (key b) b.total hk, newKeys_cons_mem key _ b bills hk]
    · rw [ih, rkeys_radd_fresh m (key b) b.total hk, newKeys_cons_fresh key _ b bills hk]
      simp

theorem nodup_rkeys_radd (m : List (κ × Int)) (k : κ) (v : Int)
    (h : (rkeys m).Nodup) : (rkeys (radd m k v)).Nodup :=
  nodup_rkeys_rset m k _ h

theorem nodup_rkeys_bucketize (key : Bill → κ) (bills : List Bill) :
    ∀ m : List (κ × Int), (rkeys m).Nodup → (rkeys (bucketize key m bills)).Nodup := by
  induction bills with
  | nil => intro m hm; exact hm
  | cons b bills ih =>
    intro m hm
    exact ih (radd m (key b) b.total) (nodup_rkeys_radd m (key b) b.total hm)

theorem sum_rvalues_bucketize (key : Bill → κ) (bills : List Bill) :
    ∀ m : List (κ × Int), (rkeys m).Nodup →
      (rvalues (bucketize key m bills)).sum
        = (rvalues m).sum + (bills.map Bill.total).sum := by
  induction bills with
  | nil => intro m _; simp [bucketize]
  | cons b bills ih =>
    intro m hm
    have hstep : bucketize key m (b :: bills) = bucketize key (radd m (key b) b.total) bills := rfl
    rw [hstep, ih (radd m (key b) b.total) (nodup_rkeys_radd m (key b) b.total hm),
        sum_rvalues_radd m (key b) b.total hm]
    simp only [List.map_cons, List.sum_cons]
    ring

theorem length_bucketize (key : Bill → κ) (bills : List Bill) (m : List (κ × Int)) :
    (bucketize key m bills).length = m.length + (newKeys key (rkeys m) bills).length := by
  have h1 : (bucketize key m bills).length = (rkeys (bucketize key m bills)).length := by
    simp [rkeys]
  have h2 : m.length = (rkeys m).length := by simp [rkeys]
  rw [h1, h2, rkeys_bucketize key bills m, List.length_append]

end AggregationLemmas

theorem map_fst_mergeSort_byYear (m : List (Nat × Int)) :
    (m.mergeSort byYear).map Prod.fst = (m.map Prod.fst).mergeSort (fun a b => a ≤ b) := by
  have htrans : ∀ a b c : Nat × Int, byYear a b = true → byYear b c = true → byYear a c = true := by
    intro a b c hab hbc
    simp only [byYear, decide_eq_true_eq] at *
    omega
  have htotal : ∀ a b : Nat × Int, (byYear a b || byYear b a) = true := by
    intro a b
    simp only [byYear, Bool.or_eq_true, decide_eq_true_eq]
    omega
  have htransN : ∀ a b c : Nat, (decide (a ≤ b)) = true → (decide (b ≤ c)) = true →
      (decide (a ≤ c)) = true := by
    intro a b c hab hbc
    simp only [decide_eq_true_eq] at *
    omega
  have htotalN : ∀ a b : Nat, ((decide (a ≤ b)) || (decide (b ≤ a))) = true := by
    intro a b
    simp only [Bool.or_eq_true, decide_eq_true_eq]
    omega
  refine List.eq_of_perm_of_sorted (r := fun a b : Nat => a ≤ b) ?_ ?_ ?_
  · exact ((List.mergeSort_perm m byYear).map Prod.fst).trans
      (List.mergeSort_perm (m.map Prod.fst) (fun a b => a ≤ b)).symm
  · exact List.pairwise_map.mpr
      ((List.sorted_mergeSort htrans htotal m).imp (fun h => by simpa [byYear] using h))
  · exact (List.sorted_mergeSort htransN htotalN (m.map Prod.fst)).imp
      (fun h => by simpa using h)

/-! ## Window label lemmas -/
theorem string_append_left_cancel (s x y : String) (h : s ++ x = s ++ y) : x = y := by
  have hd := congrArg String.data h
  rw [String.data_append, String.data_append] at hd
  exact String.ext (List.append_cancel_left hd)

theorem dailyLabels_nodup (today : CalDate) (hv : today.Valid) (hy : 2 ≤ today.year) :
    (dailyLabels today).Nodup := by
  have h365 := dayNumber_ge_365 today hy
  unfold dailyLabels
  apply List.Nodup.map_on ?_ (List.nodup_range 30)
  intro i hi j hj heq
  rw [List.mem_range] at hi hj
  obtain ⟨hvi, hni⟩ := subDays_step today hv i (by omega)
  obtain ⟨hvj, hnj⟩ := subDays_step today hv j (by omega)
  by_contra hne
  have hmd := fmtMMMdd_inj _ _ hvi hvj heq
  have hdisj := monthDay_ne_of_year_gap (subDays today i) (subDays today j) hvi hvj
    (by omega) (by omega) (by omega)
  rcases hdisj with h | h
  · exact h hmd.1
  · exact h hmd.2

theorem weeklyLabels_nodup (today : CalDate) (hv : today.Valid) (hy : 2 ≤ today.year) :
    (weeklyLabels today).Nodup := by
  have h365 := dayNumber_ge_365 today hy
  unfold weeklyLabels
  apply List.Nodup.map_on ?_ (List.nodup_range 12)
  intro i hi j hj heq
  rw [List.mem_range] at hi hj
  have heq' : fmtddMMM (subWeeks today i) = fmtddMMM (subWeeks today j) :=
    string_append_left_cancel "Week " _ _ heq
  unfold subWeeks at heq'
  obtain ⟨hvi, hni⟩ := subDays_step today hv (7 * i) (by omega)
  obtain ⟨hvj, hnj⟩ := subDays_step today hv (7 * j) (by omega)
  by_contra hne
  have hmd := fmtddMMM_inj _ _ hvi hvj heq'
  have hdisj := monthDay_ne_of_year_gap (subDays today (7 * i)) (subDays today (7 * j)) hvi hvj
    (by omega) (by omega) (by omega)
  rcases hdisj with h | h
  · exact h hmd.1
  · exact h hmd.2

theorem subMonths_month (d : CalDate) (i : Nat) :
    (subMonths d i).month = (d.year * 12 + (d.month - 1) - i) % 12 + 1 := rfl

theorem monthlyLabels_nodup (today : CalDate) (hv : today.Valid) :
    (monthlyLabels today).Nodup := by
  obtain ⟨hy, hm1, hm2, _, _⟩ := hv
  unfold monthlyLabels
  apply List.Nodup.map_on ?_ (List.nodup_range 12)
  intro i hi j hj heq
  rw [List.mem_range] at hi hj
  unfold fmtMMM at heq
  rw [subMonths_month, subMonths_month] at heq
  have hmi : (today.year * 12 + (today.month - 1) - i) % 12 + 1 < 13 := by omega
  have hmj : (today.year * 12 + (today.month - 1) - j) % 12 + 1 < 13 := by omega
  have := monthName_inj _ hmi _ hmj heq
  omega

theorem monthName_mem_monthlyLabels (today : CalDate) (hv : today.Valid) (mm : Nat)
    (h1 : 1 ≤ mm) (h2 : mm ≤ 12) : monthName mm ∈ monthlyLabels today := by
  obtain ⟨hy, hm1, hm2, _, _⟩ := hv
  unfold monthlyLabels
  refine List.mem_map.mpr
    ⟨(today.year * 12 + (today.month - 1) - (mm - 1)) % 12, List.mem_range.mpr (by omega), ?_⟩
  unfold fmtMMM
  rw [subMonths_month]
  congr 1
  omega

theorem seededYears_eq (today : CalDate) :
    seededYears today = [today.year, today.year - 1, today.year - 2,
      today.year - 3, today.year - 4] := rfl

theorem seededYears_nodup (today : CalDate) (hy : 4 ≤ today.year) :
    (seededYears today).Nodup := by
  rw [seededYears_eq]
  simp [List.nodup_cons]
  omega

theorem mergeSort_seededYears (today : CalDate) :
    (seededYears today).mergeSort (fun a b => a ≤ b)
      = [today.year - 4, today.year - 3, today.year - 2, today.year - 1, today.year] := by
  have htransN : ∀ a b c : Nat, (decide (a ≤ b)) = true → (decide (b ≤ c)) = true →
      (decide (a ≤ c)) = true := by
    intro a b c hab hbc
    simp only [decide_eq_true_eq] at *
    omega
  have htotalN : ∀ a b : Nat, ((decide (a ≤ b)) || (decide (b ≤ a))) = true := by
    intro a b
    simp only [Bool.or_eq_true, decide_eq_true_eq]
    omega
  refine List.eq_of_perm_of_sorted (r := fun a b : Nat => a ≤ b) ?_ ?_ ?_
  · refine (List.mergeSort_perm (seededYears today) _).trans ?_
    rw [seededYears_eq]
    have : [today.year, today.year - 1, today.year - 2, today.year - 3, today.year - 4]
        = [today.year - 4, today.year - 3, today.year - 2, today.year - 1, today.year].reverse := by
      simp
    rw [this]
    exact (List.reverse_perm _).symm
  · exact (List.sorted_mergeSort htransN htotalN (seededYears today)).imp
      (fun h => by simpa using h)
  · refine List.Pairwise.cons ?_ (List.Pairwise.cons ?_ (List.Pairwise.cons ?_
      (List.Pairwise.cons ?_ (List.pairwise_singleton _ _)))) <;>
    · intro b hb
      simp only [List.mem_cons, List.mem_singleton, List.not_mem_nil, or_false] at hb
      rcases hb with h | h | h | h | h <;> omega

/-! ## Aggregator output shape lemmas -/
theorem toPoints_labels (m : List (String × Int)) :
    (toPoints m).map SalesDataPoint.label = rkeys m := by
  unfold toPoints rkeys
  rw [List.map_map]
  rfl

theorem toPoints_sales (m : List (String × Int)) :
    (toPoints m).map SalesDataPoint.sales = rvalues m := by
  unfold toPoints rvalues
  rw [List.map_map]
  rfl

theorem agg_labels (key : Bill → String) (L : List String) (hL : L.Nodup) (bills : List Bill) :
    ((toPoints (bucketize key (seedZeros L) bills)).reverse).map SalesDataPoint.label
      = (newKeys key L bills).reverse ++ L.reverse := by
  rw [List.map_reverse, toPoints_labels, rkeys_bucketize,
      rkeys_seedZeros_of_nodup L hL, List.reverse_append]

theorem agg_sum (key : Bill → String) (L : List String) (bills : List Bill) :
    (((toPoints (bucketize key (seedZeros L) bills)).reverse).map SalesDataPoint.sales).sum
      = (bills.map Bill.total).sum := by
  rw [List.map_reverse, List.sum_reverse, toPoints_sales,
      sum_rvalues_bucketize key bills (seedZeros L) (nodup_rkeys_seedZeros L),
      sum_rvalues_seedZeros]
  simp

theorem agg_empty (key : Bill → String) (L : List String) (hL : L.Nodup) :
    (toPoints (bucketize key (seedZeros L) [])).reverse
      = L.reverse.map (fun l => SalesDataPoint.mk l 0) := by
  have hb : bucketize key (seedZeros L) [] = seedZeros L := rfl
  rw [hb, seedZeros_eq_map_of_nodup L hL]
  unfold toPoints
  rw [List.map_map, ← List.map_reverse]
  rfl

theorem pairs_eq_of_snd_zero (l : List (Nat × Int)) (h : ∀ p ∈ l, p.2 = 0) :
    l = l.map (fun p => (p.1, (0 : Int))) := by
  induction l with
  | nil => rfl
  | cons p l ih =>
    rw [List.map_cons]
    have hp := h p (List.mem_cons_self p l)
    have hpe : p = (p.1, (0 : Int)) := by
      rcases p with ⟨a, b⟩
      simpa using hp
    rw [← hpe, ← ih (fun q hq => h q (List.mem_cons_of_mem p hq))]

theorem getYearly_labels (today : CalDate) (hy : 4 ≤ today.year) (bills : List Bill) :
    (getYearlySalesData today bills).map SalesDataPoint.label
      = (((seededYears today ++ newKeys yearKey (seededYears today) bills).mergeSort
          (fun a b => a ≤ b)).map pad4).reverse := by
  have hkeys : (bucketize yearKey (seedZeros (seededYears today)) bills).map Prod.fst
      = seededYears today ++ newKeys yearKey (seededYears today) bills := by
    have h1 := rkeys_bucketize yearKey bills (seedZeros (seededYears today))
    have h2 := rkeys_seedZeros_of_nodup (seededYears today) (seededYears_nodup today hy)
    unfold rkeys at h1 h2
    rw [h1, h2]
  unfold getYearlySalesData
  rw [List.map_reverse]
  congr 1
  rw [← hkeys, ← map_fst_mergeSort_byYear]
  simp only [List.map_map]
  rfl

theorem getYearly_length (today : CalDate) (hy : 4 ≤ today.year) (bills : List Bill) :
    (getYearlySalesData today bills).length
      = 5 + (newKeys yearKey (seededYears today) bills).length := by
  have h := congrArg List.length (getYearly_labels today hy bills)
  rw [List.length_map, List.length_reverse, List.length_map, List.length_mergeSort,
      List.length_append] at h
  rw [h]
  have h5 : (seededYears today).length = 5 := rfl
  omega

theorem getYearly_sum (today : CalDate) (bills : List Bill) :
    ((getYearlySalesData today bills).map SalesDataPoint.sales).sum
      = (bills.map Bill.total).sum := by
  unfold getYearlySalesData
  rw [List.map_reverse, List.sum_reverse]
  simp only [List.map_map]
  have h1 : ((bucketize yearKey (seedZeros (seededYears today)) bills).mergeSort byYear).map
        (SalesDataPoint.sales ∘ fun p : Nat × Int => SalesDataPoint.mk (pad4 p.1) p.2)
      = ((bucketize yearKey (seedZeros (seededYears today)) bills).mergeSort byYear).map
        Prod.snd := rfl
  rw [h1]
  have hperm := (List.mergeSort_perm
    (bucketize yearKey (seedZeros (seededYears today)) bills) byYear).map Prod.snd
  rw [hperm.sum_eq]
  have h2 := sum_rvalues_bucketize yearKey bills (seedZeros (seededYears today))
    (nodup_rkeys_seedZeros (seededYears today))
  rw [sum_rvalues_seedZeros] at h2
  unfold rvalues at h2
  rw [h2]
  ring

theorem getYearly_empty (today : CalDate) (hy : 4 ≤ today.year) :
    getYearlySalesData today []
      = [⟨pad4 today.year, 0⟩, ⟨pad4 (today.year - 1), 0⟩, ⟨pad4 (today.year - 2), 0⟩,
          ⟨pad4 (today.year - 3), 0⟩, ⟨pad4 (today.year - 4), 0⟩] := by
  have hb : bucketize yearKey (seedZeros (seededYears today)) [] = seedZeros (seededYears today) := rfl
  have hzero : ∀ p ∈ (seedZeros (seededYears today)).mergeSort byYear, p.2 = 0 := by
    intro p hp
    have hmem : p ∈ seedZeros (seededYears today) :=
      (List.mergeSort_perm _ byYear).subset hp
    exact rvalues_seedZeros_all_zero (seededYears today) p.2
      (List.mem_map_of_mem Prod.snd hmem)
  have hfst : ((seedZeros (seededYears today)).mergeSort byYear).map Prod.fst
      = [today.year - 4, today.year - 3, today.year - 2, today.year - 1, today.year] := by
    rw [map_fst_mergeSort_byYear]
    have : (seedZeros (seededYears today)).map Prod.fst = seededYears today := by
      have := rkeys_seedZeros_of_nodup (seededYears today) (seededYears_nodup today hy)
      unfold rkeys at this
      exact this
    rw [this, mergeSort_seededYears]
  have hentries : (seedZeros (seededYears today)).mergeSort byYear
      = [(today.year - 4, (0 : Int)), (today.year - 3, 0), (today.year - 2, 0),
          (today.year - 1, 0), (today.year, 0)] := by
    have h1 := pairs_eq_of_snd_zero _ hzero
    rw [h1]
    have h2 : ((seedZeros (seededYears today)).mergeSort byYear).map (fun p => (p.1, (0 : Int)))
        = (((seedZeros (seededYears today)).mergeSort byYear).map Prod.fst).map
            (fun k => (k, (0 : Int))) := by
      rw [List.map_map]
      rfl
    rw [h2, hfst]
    rfl
  show (((bucketize yearKey (seedZeros (seededYears today)) []).mergeSort byYear).map
      (fun p => SalesDataPoint.mk (pad4 p.1) p.2)).reverse = _
  rw [hb, hentries]
  rfl

theorem filter_toPoints_eq (m : List (String × Int)) (k : String) (v : Int)
    (hnd : (rkeys m).Nodup) (hl : rlookup m k = some v) :
    (toPoints m).filter (fun p => p.label = k) = [⟨k, v⟩] := by
  induction m with
  | nil => simp [rlookup, List.find?] at hl
  | cons p m ih =>
    rw [rkeys, List.map_cons, List.nodup_cons] at hnd
    by_cases hp : p.1 = k
    · rw [rlookup_cons_of_pos p m k hp] at hl
      have hv : v = p.2 := by
        injection hl with h
        exact h.symm
      have hrest : (toPoints m).filter (fun q => q.label = k) = [] := by
        rw [List.filter_eq_nil_iff]
        intro q hq
        rcases List.mem_map.mp hq with ⟨r, hr, hre⟩
        have hrk : r.1 ≠ k := by
          intro hc
          exact (hp ▸ hnd.1) (hc ▸ List.mem_map_of_mem Prod.fst hr)
        rw [← hre]
        simpa using hrk
      have hhead : toPoints (p :: m) = ⟨p.1, p.2⟩ :: toPoints m := rfl
      rw [hhead, List.filter_cons_of_pos (by simpa using hp), hrest, hp, hv]
    · rw [rlookup_cons_of_neg p m k hp] at hl
      have hhead : toPoints (p :: m) = ⟨p.1, p.2⟩ :: toPoints m := rfl
      rw [hhead, List.filter_cons_of_neg (by simpa using hp)]
      exact ih hnd.2 hl

/-- C1 (counterexample): the original claim — exactly N entries, ordered
oldest-to-newest, for every input collection — fails on the code.  With
`today` = 2025-10-12, a single completed bill dated 2025-09-12 (which the
fetch window `created_at >= subDays(today, 30)` allows) has day label
"Sep 12", which is outside the 30 seeded labels "Sep 13".."Oct 12", so
the aggregation loop appends a 31st bucket.  Moreover the yearly
aggregator's record keys are the numeric strings "2021".."2025", which
ECMAScript enumerates in ascending numeric order, so after `.reverse()`
the output is ordered newest-to-oldest even on empty input. -/
theorem c1_counterexample :
    (getDailySalesData ⟨2025, 10, 12⟩ [⟨⟨2025, 9, 12⟩, 100⟩]).length = 31
    ∧ (getYearlySalesData ⟨2025, 10, 12⟩ []).map SalesDataPoint.label
        = ["2025", "2024", "2023", "2022", "2021"] := by
  constructor
  · rfl
  · rw [getYearly_empty ⟨2025, 10, 12⟩ (by decide)]
    rfl

/-- C1 (amended): for every window ending on a valid date with a
four-digit year and every bill collection with valid four-digit-year
dates, the aggregators return the seeded window plus one extra entry per
distinct out-of-window bucket label; daily/weekly/monthly seeded labels
are ordered oldest-to-newest (after the extras), the monthly aggregator
has no extras, the yearly aggregator is ordered by descending year, and
an empty input yields exactly N entries, all zero. -/
theorem c1_amended_window_shape (today : CalDate) (bills : List Bill)
    (hv : today.Valid) (hylo : 1000 ≤ today.year) (hyhi : today.year ≤ 9999)
    (hb : ∀ b ∈ bills, b.created_at.Valid)
    (hby : ∀ b ∈ bills, 1000 ≤ b.created_at.year ∧ b.created_at.year ≤ 9999) :
    C1Shape today bills := by
  have hy2 : 2 ≤ today.year := by omega
  have hy4 : 4 ≤ today.year := by omega
  have hdL := dailyLabels_nodup today hv hy2
  have hwL := weeklyLabels_nodup today hv hy2
  have hmL := monthlyLabels_nodup today hv
  have hcov : ∀ b ∈ bills, monthKey b ∈ monthlyLabels today := by
    intro b hbm
    obtain ⟨_, h1, h2, _, _⟩ := hb b hbm
    exact monthName_mem_monthlyLabels today hv b.created_at.month h1 h2
  have hmnew : newKeys monthKey (monthlyLabels today) bills = [] :=
    newKeys_eq_nil_of_covered monthKey _ bills hcov
  have hd : (getDailySalesData today bills).map SalesDataPoint.label
      = (newKeys dayKey (dailyLabels today) bills).reverse ++ (dailyLabels today).reverse :=
    agg_labels dayKey (dailyLabels today) hdL bills
  have hw : (getWeeklySalesData today bills).map SalesDataPoint.label
      = (newKeys weekKey (weeklyLabels today) bills).reverse ++ (weeklyLabels today).reverse :=
    agg_labels weekKey (weeklyLabels today) hwL bills
  have hmth : (getMonthlySalesData today bills).map SalesDataPoint.label
      = (monthlyLabels today).reverse := by
    have h := agg_labels monthKey (monthlyLabels today) hmL bills
    rw [hmnew, List.reverse_nil, List.nil_append] at h
    exact h
  have hdlen : (getDailySalesData today bills).length
      = 30 + (newKeys dayKey (dailyLabels today) bills).length := by
    have h := congrArg List.length hd
    rw [List.length_map, List.length_append, List.length_reverse, List.length_reverse] at h
    have h30 : (dailyLabels today).length = 30 := by simp [dailyLabels]
    omega
  have hwlen : (getWeeklySalesData today bills).length
      = 12 + (newKeys weekKey (weeklyLabels today) bills).length := by
    have h := congrArg List.length hw
    rw [List.length_map, List.length_append, List.length_reverse, List.length_reverse] at h
    have h12 : (weeklyLabels today).length = 12 := by simp [weeklyLabels]
    omega
  have hmlen : (getMonthlySalesData today bills).length = 12 := by
    have h := congrArg List.length hmth
    rw [List.length_map, List.length_reverse] at h
    have h12 : (monthlyLabels today).length = 12 := by simp [monthlyLabels]
    omega
  refine ⟨hd, hw, hmth, getYearly_labels today hy4 bills, hdlen, hwlen, hmlen,
    getYearly_length today hy4 bills, ?_⟩
  intro hnil
  exact ⟨agg_empty dayKey _ hdL, agg_empty weekKey _ hwL, agg_empty monthKey _ hmL,
    getYearly_empty today hy4⟩

/-- C1 (witness): the amended window-shape theorem holds at the concrete
window ending 2025-10-12 with an empty bill collection. -/
theorem c1_amended_window_shape_witness : C1Shape ⟨2025, 10, 12⟩ [] :=
  c1_amended_window_shape ⟨2025, 10, 12⟩ [] (by decide) (by decide) (by decide)
    (fun b hb => absurd hb (List.not_mem_nil b))
    (fun b hb => absurd hb (List.not_mem_nil b))

/-- C2 (counterexample): the original claim — the output sum equals the
sum of the amounts whose bucket label lies inside the generated window,
amounts outside being excluded — fails: with `today` = 2025-10-12 a bill
dated 2025-09-12 has a label outside the 30 seeded labels, so the claim
predicts a total of 0, but the code appends a new bucket and the output
sums to 100. -/
theorem c2_counterexample :
    ((getDailySalesData ⟨2025, 10, 12⟩ [⟨⟨2025, 9, 12⟩, 100⟩]).map SalesDataPoint.sales).sum
        = 100
    ∧ dayKey ⟨⟨2025, 9, 12⟩, 100⟩ ∉ dailyLabels ⟨2025, 10, 12⟩ := by
  constructor
  · rfl
  · decide

/-- C2 (amended): for every window and every input collection, the sum of
the per-bucket sums of each aggregator's output equals the sum of ALL
input amounts; an amount whose bucket label falls outside the seeded
window is not excluded but accumulated under a new appended bucket, and
no error occurs (the aggregators are total functions). -/
theorem c2_amended_sum_preservation (today : CalDate) (bills : List Bill) :
    ((getDailySalesData today bills).map SalesDataPoint.sales).sum = (bills.map Bill.total).sum
    ∧ ((getWeeklySalesData today bills).map SalesDataPoint.sales).sum = (bills.map Bill.total).sum
    ∧ ((getMonthlySalesData today bills).map SalesDataPoint.sales).sum = (bills.map Bill.total).sum
    ∧ ((getYearlySalesData today bills).map SalesDataPoint.sales).sum = (bills.map Bill.total).sum :=
  ⟨agg_sum dayKey (dailyLabels today) bills, agg_sum weekKey (weeklyLabels today) bills,
    agg_sum monthKey (monthlyLabels today) bills, getYearly_sum today bills⟩

/-- C2 (amended, witness): the sum-preservation theorem evaluated at the
window ending 2025-10-12 with one in-window and one out-of-window bill. -/
theorem c2_amended_sum_preservation_witness :
    ((getDailySalesData ⟨2025, 10, 12⟩ [⟨⟨2025, 9, 12⟩, 100⟩, ⟨⟨2025, 10, 1⟩, 250⟩]).map
        SalesDataPoint.sales).sum
      = ([⟨⟨2025, 9, 12⟩, 100⟩, ⟨⟨2025, 10, 1⟩, (250 : Int)⟩].map Bill.total).sum :=
  (c2_amended_sum_preservation ⟨2025, 10, 12⟩ _).1

/-- C5: the monthly bucket key is computed from the month name alone and
the yearly bucket key from the year number alone; consequently two bills
with the same calendar month (regardless of year) are accumulated into
the one seeded bucket carrying that month name, whose sum is the sum of
both totals. -/
theorem c5_month_year_bucket_collision (today : CalDate) (b1 b2 : Bill)
    (hv : today.Valid) (hb1 : b1.created_at.Valid)
    (hmeq : b1.created_at.month = b2.created_at.month) :
    monthKey b1 = monthKey b2
    ∧ (∀ c1 c2 : Bill, c1.created_at.year = c2.created_at.year → yearKey c1 = yearKey c2)
    ∧ ((getMonthlySalesData today [b1, b2]).filter
        (fun p => p.label = monthKey b1)).map SalesDataPoint.sales = [b1.total + b2.total] := by
  have hkey : monthKey b1 = monthKey b2 := by
    unfold monthKey fmtMMM
    rw [hmeq]
  refine ⟨hkey, fun c1 c2 h => by unfold yearKey; rw [h], ?_⟩
  have hmem : monthKey b1 ∈ rkeys (seedZeros (monthlyLabels today)) := by
    rw [mem_rkeys_seedZeros]
    obtain ⟨_, h1, h2, _, _⟩ := hb1
    exact monthName_mem_monthlyLabels today hv _ h1 h2
  have hseed : rlookup (seedZeros (monthlyLabels today)) (monthKey b1) = some 0 :=
    rlookup_seedZeros_of_mem _ _ hmem
  have hrec : bucketize monthKey (seedZeros (monthlyLabels today)) [b1, b2]
      = radd (radd (seedZeros (monthlyLabels today)) (monthKey b1) b1.total)
          (monthKey b1) b2.total := by
    simp only [bucketize, List.foldl_cons, List.foldl_nil]
    rw [← hkey]
  have hl1 : rlookup (radd (seedZeros (monthlyLabels today)) (monthKey b1) b1.total)
      (monthKey b1) = some (0 + b1.total) := by
    rw [rlookup_radd_self, hseed]
    rfl
  have hl2 : rlookup (radd (radd (seedZeros (monthlyLabels today)) (monthKey b1) b1.total)
      (monthKey b1) b2.total) (monthKey b1) = some (0 + b1.total + b2.total) := by
    rw [rlookup_radd_self, hl1]
    rfl
  have hnd : (rkeys (radd (radd (seedZeros (monthlyLabels today)) (monthKey b1) b1.total)
      (monthKey b1) b2.total)).Nodup := by
    apply nodup_rkeys_radd
    apply nodup_rkeys_radd
    exact nodup_rkeys_seedZeros _
  have hfil := filter_toPoints_eq _ (monthKey b1) (0 + b1.total + b2.total) hnd hl2
  unfold getMonthlySalesData
  rw [List.filter_reverse, hrec, hfil]
  simp

/-- C5 (witness): bills of March 2024 (total 100) and March 2025
(total 250) collide into the single "Mar" bucket, which sums to 350. -/
theorem c5_month_year_bucket_collision_witness :
    monthKey ⟨⟨2024, 3, 15⟩, 100⟩ = monthKey ⟨⟨2025, 3, 2⟩, 250⟩
    ∧ (∀ c1 c2 : Bill, c1.created_at.year = c2.created_at.year → yearKey c1 = yearKey c2)
    ∧ ((getMonthlySalesData ⟨2025, 10, 12⟩ [⟨⟨2024, 3, 15⟩, 100⟩, ⟨⟨2025, 3, 2⟩, 250⟩]).filter
        (fun p => p.label = monthKey ⟨⟨2024, 3, 15⟩, 100⟩)).map SalesDataPoint.sales
      = [100 + 250] :=
  c5_month_year_bucket_collision ⟨2025, 10, 12⟩ ⟨⟨2024, 3, 15⟩, 100⟩ ⟨⟨2025, 3, 2⟩, 250⟩
    (by decide) (by decide) rfl

theorem length_filter_add_length_filter_le {α : Type} (p q : α → Bool) (l : List α)
    (h : ∀ a, ¬(p a = true ∧ q a = true)) :
    (l.filter p).length + (l.filter q).length ≤ l.length := by
  induction l with
  | nil => simp
  | cons a l ih =>
    by_cases hp : p a = true
    · have hq : ¬q a = true := fun hq => h a ⟨hp, hq⟩
      rw [List.filter_cons_of_pos hp, List.filter_cons_of_neg hq]
      simp only [List.length_cons]
      omega
    · rw [List.filter_cons_of_neg hp]
      by_cases hq : q a = true
      · rw [List.filter_cons_of_pos hq]
        simp only [List.length_cons]
        omega
      · rw [List.filter_cons_of_neg hq]
        simp only [List.length_cons]
        omega

/-- C10: the low-stock and out-of-stock filters of `getDashboardStats`
classify disjoint sets of products — low stock means a numeric stock
strictly above zero and at most the numeric threshold, out of stock means
stock exactly zero — so no product is counted in both and the two counts
never exceed the product count together. -/
theorem c10_stock_disjoint (products : List StockRow) :
    (∀ p : StockRow, ¬(isLowStock p = true ∧ isOutOfStock p = true))
    ∧ (∀ p : StockRow, isLowStock p = true →
        ∃ s t, p.stock = some s ∧ p.low_stock_threshold = some t ∧ 0 < s ∧ s ≤ t)
    ∧ (∀ p : StockRow, isOutOfStock p = true → p.stock = some 0)
    ∧ lowStockItems products + outOfStockItems products ≤ products.length
    ∧ (∀ p ∈ products.filter isLowStock, p ∉ products.filter isOutOfStock) := by
  have hlow : ∀ p : StockRow, isLowStock p = true →
      ∃ s t, p.stock = some s ∧ p.low_stock_threshold = some t ∧ 0 < s ∧ s ≤ t := by
    intro p hlp
    unfold isLowStock at hlp
    cases hs : p.stock with
    | none => rw [hs] at hlp; simp at hlp
    | some s =>
      cases ht : p.low_stock_threshold with
      | none => rw [hs, ht] at hlp; simp at hlp
      | some t =>
        rw [hs, ht] at hlp
        simp only [Bool.and_eq_true, decide_eq_true_eq] at hlp
        exact ⟨s, t, rfl, rfl, hlp.2, hlp.1⟩
  have hout : ∀ p : StockRow, isOutOfStock p = true → p.stock = some 0 := by
    intro p hop
    unfold isOutOfStock at hop
    cases hs : p.stock with
    | none => rw [hs] at hop; simp at hop
    | some s =>
      rw [hs] at hop
      simp only [decide_eq_true_eq] at hop
      rw [hop]
  have hdisj : ∀ p : StockRow, ¬(isLowStock p = true ∧ isOutOfStock p = true) := by
    rintro p ⟨hlp, hop⟩
    obtain ⟨s, t, hs, _, hpos, _⟩ := hlow p hlp
    have h0 := hout p hop
    rw [hs] at h0
    injection h0 with h0
    omega
  refine ⟨hdisj, hlow, hout, ?_, ?_⟩
  · exact length_filter_add_length_filter_le isLowStock isOutOfStock products
      (fun a => hdisj a)
  · intro p hpl hpo
    have h1 := (List.mem_filter.mp hpl).2
    have h2 := (List.mem_filter.mp hpo).2
    exact hdisj p ⟨h1, h2⟩

theorem qtyOf_nil : qtyOf [] = 0 := rfl

theorem qtyOf_cons (it : BillItemWithProduct) (l : List BillItemWithProduct) :
    qtyOf (it :: l) = it.quantity + qtyOf l := by
  simp [qtyOf]

theorem revOf_cons (it : BillItemWithProduct) (l : List BillItemWithProduct) :
    revOf (it :: l) = it.productPrice * it.quantity + revOf l := by
  simp [revOf]

theorem profOf_cons (it : BillItemWithProduct) (l : List BillItemWithProduct) :
    profOf (it :: l) = (it.productPrice - itemBuyingPrice it) * it.quantity + profOf l := by
  simp [profOf]

theorem qtyOf_append (l1 l2 : List BillItemWithProduct) :
    qtyOf (l1 ++ l2) = qtyOf l1 + qtyOf l2 := by
  simp [qtyOf]

theorem revOf_append (l1 l2 : List BillItemWithProduct) :
    revOf (l1 ++ l2) = revOf l1 + revOf l2 := by
  simp [revOf]

theorem profOf_append (l1 l2 : List BillItemWithProduct) :
    profOf (l1 ++ l2) = profOf l1 + profOf l2 := by
  simp [profOf]

theorem applyItem_fold_found (pid : String) (t : Nat) (its : List BillItemWithProduct) :
    ∀ (m : List (String × ProductSalesSummary)) (s : ProductSalesSummary),
      rlookup m pid = some s →
      ∃ s', rlookup (its.foldl (applyItem t) m) pid = some s'
        ∧ s'.totalQuantity = s.totalQuantity + qtyOf (its.filter (itemMatches pid))
        ∧ s'.totalRevenue = s.totalRevenue + revOf (its.filter (itemMatches pid))
        ∧ s'.totalProfit = s.totalProfit + profOf (its.filter (itemMatches pid))
        ∧ s'.lastSoldAt = s.lastSoldAt
        ∧ s'.id = s.id := by
  induction its with
  | nil =>
    intro m s h
    exact ⟨s, h, by simp [qtyOf], by simp [revOf], by simp [profOf], rfl, rfl⟩
  | cons it its ih =>
    intro m s h
    rw [List.foldl_cons]
    cases hit : it.product with
    | none =>
      have happ : applyItem t m it = m := by
        unfold applyItem
        rw [hit]
      have hfil : (it :: its).filter (itemMatches pid) = its.filter (itemMatches pid) :=
        List.filter_cons_of_neg (by simp [itemMatches, hit])
      rw [happ, hfil]
      exact ih m s h
    | some p =>
      by_cases hpid : p.id = pid
      · have hlook : rlookup m p.id = some s := by rw [hpid]; exact h
        have happ : applyItem t m it = rset m p.id
            { s with
              totalQuantity := s.totalQuantity + it.quantity,
              totalRevenue := s.totalRevenue + it.productPrice * it.quantity,
              totalProfit := s.totalProfit
                + (it.productPrice - p.buyingPrice.getD 0) * it.quantity } := by
          unfold applyItem
          simp only [hit, hlook]
        have hnew : rlookup (applyItem t m it) pid = some
            { s with
              totalQuantity := s.totalQuantity + it.quantity,
              totalRevenue := s.totalRevenue + it.productPrice * it.quantity,
              totalProfit := s.totalProfit
                + (it.productPrice - p.buyingPrice.getD 0) * it.quantity } := by
          rw [happ, ← hpid]
          exact rlookup_rset_self m p.id _
        obtain ⟨s', hs', hq, hr, hpr, hl, hid⟩ := ih (applyItem t m it) _ hnew
        have hfil : (it :: its).filter (itemMatches pid)
            = it :: its.filter (itemMatches pid) :=
          List.filter_cons_of_pos (by simp [itemMatches, hit, hpid])
        have hbuy : itemBuyingPrice it = p.buyingPrice.getD 0 := by
          unfold itemBuyingPrice
          rw [hit]
        refine ⟨s', hs', ?_, ?_, ?_, ?_, ?_⟩
        · rw [hfil, qtyOf_cons, hq]
          simp only
          ring
        · rw [hfil, revOf_cons, hr]
          simp only
          ring
        · rw [hfil, profOf_cons, hpr, hbuy]
          simp only
          ring
        · rw [hl]
        · rw [hid]
      · have happ : rlookup (applyItem t m it) pid = rlookup m pid := by
          unfold applyItem
          simp only [hit]
          cases hlook : rlookup m p.id with
          | some ex =>
            simp only [hlook]
            exact rlookup_rset_other m p.id pid _ (fun hc => hpid hc.symm)
          | none =>
            simp only [hlook]
            exact rlookup_rset_other m p.id pid _ (fun hc => hpid hc.symm)
        have hfil : (it :: its).filter (itemMatches pid) = its.filter (itemMatches pid) :=
          List.filter_cons_of_neg (by simp [itemMatches, hit, hpid])
        rw [hfil]
        exact ih (applyItem t m it) s (by rw [happ]; exact h)

theorem applyItem_fold_create (pid : String) (t : Nat) (its : List BillItemWithProduct) :
    ∀ m : List (String × ProductSalesSummary), rlookup m pid = none →
      (its.filter (itemMatches pid) = [] →
        rlookup (its.foldl (applyItem t) m) pid = none)
      ∧ (its.filter (itemMatches pid) ≠ [] →
          ∃ s', rlookup (its.foldl (applyItem t) m) pid = some s'
            ∧ s'.totalQuantity = qtyOf (its.filter (itemMatches pid))
            ∧ s'.totalRevenue = revOf (its.filter (itemMatches pid))
            ∧ s'.totalProfit = profOf (its.filter (itemMatches pid))
            ∧ s'.lastSoldAt = t
            ∧ s'.id = pid) := by
  induction its with
  | nil =>
    intro m h
    exact ⟨fun _ => h, fun hne => absurd rfl hne⟩
  | cons it its ih =>
    intro m h
    rw [List.foldl_cons]
    cases hit : it.product with
    | none =>
      have happ : applyItem t m it = m := by
        unfold applyItem
        rw [hit]
      have hfil : (it :: its).filter (itemMatches pid) = its.filter (itemMatches pid) :=
        List.filter_cons_of_neg (by simp [itemMatches, hit])
      rw [happ, hfil]
      exact ih m h
    | some p =>
      by_cases hpid : p.id = pid
      · have hlook : rlookup m p.id = none := by rw [hpid]; exact h
        have happ : applyItem t m it = rset m p.id
            { id := p.id, name := p.name,
              category := p.category.getD "Uncategorized",
              brand := p.brand.getD "Unknown",
              totalQuantity := it.quantity,
              buyingPrice := p.buyingPrice.getD 0,
              sellingPrice := it.productPrice,
              totalRevenue := it.productPrice * it.quantity,
              totalProfit := (it.productPrice - p.buyingPrice.getD 0) * it.quantity,
              lastSoldAt := t } := by
          unfold applyItem
          simp only [hit, hlook]
        have hnew : rlookup (applyItem t m it) pid = some
            { id := p.id, name := p.name,
              category := p.category.getD "Uncategorized",
              brand := p.brand.getD "Unknown",
              totalQuantity := it.quantity,
              buyingPrice := p.buyingPrice.getD 0,
              sellingPrice := it.productPrice,
              totalRevenue := it.productPrice * it.quantity,
              totalProfit := (it.productPrice - p.buyingPrice.getD 0) * it.quantity,
              lastSoldAt := t } := by
          rw [happ, ← hpid]
          exact rlookup_rset_self m p.id _
        obtain ⟨s', hs', hq, hr, hpr, hl, hid⟩ :=
          applyItem_fold_found pid t its (applyItem t m it) _ hnew
        have hfil : (it :: its).filter (itemMatches pid)
            = it :: its.filter (itemMatches pid) :=
          List.filter_cons_of_pos (by simp [itemMatches, hit, hpid])
        have hbuy : itemBuyingPrice it = p.buyingPrice.getD 0 := by
          unfold itemBuyingPrice
          rw [hit]
        constructor
        · intro hfil0
          rw [hfil] at hfil0
          exact absurd hfil0 (List.cons_ne_nil it _)
        · intro _
          refine ⟨s', hs', ?_, ?_, ?_, ?_, ?_⟩
          · rw [hfil, qtyOf_cons, hq]
          · rw [hfil, revOf_cons, hr]
          · rw [hfil, profOf_cons, hpr, hbuy]
          · rw [hl]
          · rw [hid, hpid]
      · have happ : rlookup (applyItem t m it) pid = rlookup m pid := by
          unfold applyItem
          simp only [hit]
          cases hlook : rlookup m p.id with
          | some ex =>
            simp only [hlook]
            exact rlookup_rset_other m p.id pid _ (fun hc => hpid hc.symm)
          | none =>
            simp only [hlook]
            exact rlookup_rset_other m p.id pid _ (fun hc => hpid hc.symm)
        have hfil : (it :: its).filter (itemMatches pid) = its.filter (itemMatches pid) :=
          List.filter_cons_of_neg (by simp [itemMatches, hit, hpid])
        rw [hfil]
        exact ih (applyItem t m it) (by rw [happ]; exact h)

theorem applyBill_lines_none (pid : String) (m : List (String × ProductSalesSummary))
    (b : BillWithItems) (hb : linesFor pid b = []) (h : rlookup m pid = none) :
    rlookup (applyBill m b) pid = none := by
  unfold applyBill
  cases hits : b.items with
  | none => exact h
  | some its =>
    have hfil : its.filter (itemMatches pid) = [] := by
      unfold linesFor at hb
      rwa [hits] at hb
    exact (applyItem_fold_create pid b.createdAt its m h).1 hfil

theorem applyBill_fold_found (pid : String) (bs : List BillWithItems) :
    ∀ (m : List (String × ProductSalesSummary)) (s : ProductSalesSummary),
      rlookup m pid = some s →
      ∃ s', rlookup (bs.foldl applyBill m) pid = some s'
        ∧ s'.totalQuantity = s.totalQuantity + qtyOf ((bs.map (linesFor pid)).flatten)
        ∧ s'.totalRevenue = s.totalRevenue + revOf ((bs.map (linesFor pid)).flatten)
        ∧ s'.totalProfit = s.totalProfit + profOf ((bs.map (linesFor pid)).flatten)
        ∧ s'.lastSoldAt = s.lastSoldAt
        ∧ s'.id = s.id := by
  induction bs with
  | nil =>
    intro m s h
    exact ⟨s, h, by simp [qtyOf], by simp [revOf], by simp [profOf], rfl, rfl⟩
  | cons b bs ih =>
    intro m s h
    rw [List.foldl_cons, List.map_cons, List.flatten_cons]
    cases hits : b.items with
    | none =>
      have happ : applyBill m b = m := by
        unfold applyBill
        rw [hits]
      have hfil : linesFor pid b = [] := by
        unfold linesFor
        rw [hits]
        rfl
      rw [happ, hfil, List.nil_append]
      exact ih m s h
    | some its =>
      have happ : applyBill m b = its.foldl (applyItem b.createdAt) m := by
        unfold applyBill
        rw [hits]
      have hfil : linesFor pid b = its.filter (itemMatches pid) := by
        unfold linesFor
        rw [hits]
        rfl
      obtain ⟨s1, hs1, hq1, hr1, hp1, hl1, hid1⟩ :=
        applyItem_fold_found pid b.createdAt its m s h
      obtain ⟨s', hs', hq, hr, hpr, hl, hid⟩ := ih (applyBill m b) s1 (by rw [happ]; exact hs1)
      refine ⟨s', hs', ?_, ?_, ?_, ?_, ?_⟩
      · rw [hq, hq1, hfil, qtyOf_append]
        ring
      · rw [hr, hr1, hfil, revOf_append]
        ring
      · rw [hpr, hp1, hfil, profOf_append]
        ring
      · rw [hl, hl1]
      · rw [hid, hid1]

theorem applyBill_fold_create (pid : String) (bs : List BillWithItems) :
    ∀ m : List (String × ProductSalesSummary), rlookup m pid = none →
      ((∀ b ∈ bs, linesFor pid b = []) → rlookup (bs.foldl applyBill m) pid = none)
      ∧ (∀ b0, bs.find? (fun b => !(linesFor pid b).isEmpty) = some b0 →
          ∃ s', rlookup (bs.foldl applyBill m) pid = some s'
            ∧ s'.totalQuantity = qtyOf ((bs.map (linesFor pid)).flatten)
            ∧ s'.totalRevenue = revOf ((bs.map (linesFor pid)).flatten)
            ∧ s'.totalProfit = profOf ((bs.map (linesFor pid)).flatten)
            ∧ s'.lastSoldAt = b0.createdAt
            ∧ s'.id = pid) := by
  induction bs with
  | nil =>
    intro m h
    refine ⟨fun _ => h, fun b0 hb0 => ?_⟩
    simp [List.find?] at hb0
  | cons b bs ih =>
    intro m h
    rw [List.foldl_cons]
    by_cases hemp : linesFor pid b = []
    · have happ : rlookup (applyBill m b) pid = none := applyBill_lines_none pid m b hemp h
      have hfind : (b :: bs).find? (fun x => !(linesFor pid x).isEmpty)
          = bs.find? (fun x => !(linesFor pid x).isEmpty) :=
        List.find?_cons_of_neg _ (by simp [hemp])
      obtain ⟨ihnone, ihsome⟩ := ih (applyBill m b) happ
      constructor
      · intro hall
        exact ihnone (fun x hx => hall x (List.mem_cons_of_mem b hx))
      · intro b0 hb0
        rw [hfind] at hb0
        obtain ⟨s', hs', hq, hr, hpr, hl, hid⟩ := ihsome b0 hb0
        rw [List.map_cons, List.flatten_cons, hemp, List.nil_append]
        exact ⟨s', hs', hq, hr, hpr, hl, hid⟩
    · cases hits : b.items with
      | none =>
        exfalso
        apply hemp
        unfold linesFor
        rw [hits]
        rfl
      | some its =>
        have happ : applyBill m b = its.foldl (applyItem b.createdAt) m := by
          unfold applyBill
          rw [hits]
        have hfil : linesFor pid b = its.filter (itemMatches pid) := by
          unfold linesFor
          rw [hits]
          rfl
        have hfilne : its.filter (itemMatches pid) ≠ [] := by
          rw [← hfil]
          exact hemp
        obtain ⟨s1, hs1, hq1, hr1, hp1, hl1, hid1⟩ :=
          (applyItem_fold_create pid b.createdAt its m h).2 hfilne
        obtain ⟨s', hs', hq, hr, hpr, hl, hid⟩ :=
          applyBill_fold_found pid bs (applyBill m b) s1 (by rw [happ]; exact hs1)
        have hfind : (b :: bs).find? (fun x => !(linesFor pid x).isEmpty) = some b :=
          List.find?_cons_of_pos _ (by simp [hemp])
      -- the entry exists whether or not anyone asks for b0
        constructor
        · intro hall
          exact absurd (hall b (List.mem_cons_self b bs)) hemp
        · intro b0 hb0
          rw [hfind] at hb0
          injection hb0 with hb0
          subst hb0
          refine ⟨s', hs', ?_, ?_, ?_, ?_, ?_⟩
          · rw [hq, hq1, List.map_cons, List.flatten_cons, qtyOf_append, hfil]
          · rw [hr, hr1, List.map_cons, List.flatten_cons, revOf_append, hfil]
          · rw [hpr, hp1, List.map_cons, List.flatten_cons, profOf_append, hfil]
          · rw [hl, hl1]
          · rw [hid, hid1]

theorem rlookup_eq_some_mem {κ ν : Type} [DecidableEq κ] (m : List (κ × ν)) (k : κ) (v : ν)
    (h : rlookup m k = some v) : (k, v) ∈ m := by
  unfold rlookup at h
  cases hf : m.find? (fun p => p.1 = k) with
  | none => rw [hf] at h; simp at h
  | some p =>
    rw [hf] at h
    rcases p with ⟨a, bv⟩
    have hp1 : a = k := by simpa using List.find?_some hf
    have hv : bv = v := by simpa using h
    subst hp1
    subst hv
    exact List.mem_of_find?_eq_some hf

theorem rset_id_inv (m : List (String × ProductSalesSummary)) (k : String)
    (v : ProductSalesSummary) (hinv : ∀ p ∈ m, p.2.id = p.1) (hv : v.id = k) :
    ∀ p ∈ rset m k v, p.2.id = p.1 := by
  intro p hp
  simp only [rset] at hp
  split at hp
  · rcases List.mem_map.mp hp with ⟨q, hq, hqe⟩
    by_cases hqk : q.1 = k
    · rw [if_pos hqk] at hqe
      rw [← hqe]
      exact hv
    · rw [if_neg hqk] at hqe
      rw [← hqe]
      exact hinv q hq
  · rcases List.mem_append.mp hp with hp | hp
    · exact hinv p hp
    · simp only [List.mem_singleton] at hp
      subst hp
      exact hv

theorem applyItem_id_inv (t : Nat) (m : List (String × ProductSalesSummary))
    (it : BillItemWithProduct) (hinv : ∀ p ∈ m, p.2.id = p.1) :
    ∀ p ∈ applyItem t m it, p.2.id = p.1 := by
  cases hit : it.product with
  | none =>
    have happ : applyItem t m it = m := by
      unfold applyItem
      rw [hit]
    rw [happ]
    exact hinv
  | some prod =>
    cases hlook : rlookup m prod.id with
    | some ex =>
      have happ : applyItem t m it = rset m prod.id
          { ex with
            totalQuantity := ex.totalQuantity + it.quantity,
            totalRevenue := ex.totalRevenue + it.productPrice * it.quantity,
            totalProfit := ex.totalProfit
              + (it.productPrice - prod.buyingPrice.getD 0) * it.quantity } := by
        unfold applyItem
        simp only [hit, hlook]
      have hexid : ex.id = prod.id :=
        hinv (prod.id, ex) (rlookup_eq_some_mem m prod.id ex hlook)
      rw [happ]
      exact rset_id_inv m prod.id _ hinv (by simpa using hexid)
    | none =>
      have happ : applyItem t m it = rset m prod.id
          { id := prod.id, name := prod.name,
            category := prod.category.getD "Uncategorized",
            brand := prod.brand.getD "Unknown",
            totalQuantity := it.quantity,
            buyingPrice := prod.buyingPrice.getD 0,
            sellingPrice := it.productPrice,
            totalRevenue := it.productPrice * it.quantity,
            totalProfit := (it.productPrice - prod.buyingPrice.getD 0) * it.quantity,
            lastSoldAt := t } := by
        unfold applyItem
        simp only [hit, hlook]
      rw [happ]
      exact rset_id_inv m prod.id _ hinv rfl

theorem applyItem_fold_id_inv (t : Nat) (its : List BillItemWithProduct) :
    ∀ m : List (String × ProductSalesSummary), (∀ p ∈ m, p.2.id = p.1) →
      ∀ p ∈ its.foldl (applyItem t) m, p.2.id = p.1 := by
  induction its with
  | nil => intro m hinv; exact hinv
  | cons it its ih =>
    intro m hinv
    rw [List.foldl_cons]
    exact ih _ (applyItem_id_inv t m it hinv)

theorem applyBill_id_inv (m : List (String × ProductSalesSummary)) (b : BillWithItems)
    (hinv : ∀ p ∈ m, p.2.id = p.1) : ∀ p ∈ applyBill m b, p.2.id = p.1 := by
  unfold applyBill
  cases b.items with
  | none => exact hinv
  | some its => exact applyItem_fold_id_inv b.createdAt its m hinv

theorem applyBill_fold_id_inv (bs : List BillWithItems) :
    ∀ m : List (String × ProductSalesSummary), (∀ p ∈ m, p.2.id = p.1) →
      ∀ p ∈ bs.foldl applyBill m, p.2.id = p.1 := by
  induction bs with
  | nil => intro m hinv; exact hinv
  | cons b bs ih =>
    intro m hinv
    rw [List.foldl_cons]
    exact ih _ (applyBill_id_inv m b hinv)

theorem values_find?_eq_rlookup (m : List (String × ProductSalesSummary))
    (hinv : ∀ p ∈ m, p.2.id = p.1) (pid : String) :
    (m.map (fun p => p.2)).find? (fun s => s.id = pid) = rlookup m pid := by
  induction m with
  | nil => rfl
  | cons p m ih =>
    have hid : p.2.id = p.1 := hinv p (List.mem_cons_self p m)
    rw [List.map_cons]
    by_cases hp : p.1 = pid
    · rw [List.find?_cons_of_pos _ (by simp [hid, hp]), rlookup_cons_of_pos p m pid hp]
    · rw [List.find?_cons_of_neg _ (by simp [hid, hp]), rlookup_cons_of_neg p m pid hp]
      exact ih (fun q hq => hinv q (List.mem_cons_of_mem p hq))

theorem head_mergeSort_max (f : ProductSalesSummary → Int) (l : List ProductSalesSummary)
    (x : ProductSalesSummary)
    (h : (l.mergeSort (fun a b => f b ≤ f a)).head? = some x) :
    x ∈ l ∧ ∀ y ∈ l, f y ≤ f x := by
  have htrans : ∀ a b c : ProductSalesSummary, (decide (f b ≤ f a)) = true →
      (decide (f c ≤ f b)) = true → (decide (f c ≤ f a)) = true := by
    intro a b c h1 h2
    simp only [decide_eq_true_eq] at *
    omega
  have htotal : ∀ a b : ProductSalesSummary,
      ((decide (f b ≤ f a)) || (decide (f a ≤ f b))) = true := by
    intro a b
    simp only [Bool.or_eq_true, decide_eq_true_eq]
    omega
  have hsorted := List.sorted_mergeSort htrans htotal l
  have hperm := List.mergeSort_perm l (fun a b => f b ≤ f a)
  cases hL : l.mergeSort (fun a b => f b ≤ f a) with
  | nil => rw [hL] at h; simp at h
  | cons a t =>
    rw [hL] at h hsorted hperm
    have hx : a = x := by simpa using h
    subst hx
    constructor
    · exact hperm.subset (List.mem_cons_self a t)
    · intro y hy
      have hyL : y ∈ a :: t := hperm.symm.subset hy
      rcases List.mem_cons.mp hyL with h1 | h1
      · exact le_of_eq (congrArg f h1)
      · have h2 := (List.pairwise_cons.mp hsorted).1 y h1
        simpa using h2

/-- C4: the two argmax selections return `null` exactly on an empty
detail set, and otherwise a member of the set that no other member beats
strictly on the target field. -/
theorem c4_argmax_null_iff_and_max (details : List ProductSalesSummary) :
    (mostSellingProduct details = none ↔ details = [])
    ∧ (mostProfitableProduct details = none ↔ details = [])
    ∧ (∀ x, mostSellingProduct details = some x →
        x ∈ details ∧ ∀ y ∈ details, y.totalQuantity ≤ x.totalQuantity)
    ∧ (∀ x, mostProfitableProduct details = some x →
        x ∈ details ∧ ∀ y ∈ details, y.totalProfit ≤ x.totalProfit) := by
  unfold mostSellingProduct mostProfitableProduct
  have hnone : ∀ f : ProductSalesSummary → Int,
      ((if details.isEmpty then none
        else (details.mergeSort (fun a b => f b ≤ f a)).head?) = none ↔ details = []) := by
    intro f
    cases details with
    | nil => simp
    | cons d ds =>
      rw [if_neg (by simp)]
      cases hL : ((d :: ds).mergeSort (fun a b => f b ≤ f a)) with
      | nil =>
        have hlen := congrArg List.length hL
        rw [List.length_mergeSort] at hlen
        simp at hlen
      | cons a t => simp [hL]
  have hmax : ∀ (f : ProductSalesSummary → Int) (x : ProductSalesSummary),
      ((if details.isEmpty then none
        else (details.mergeSort (fun a b => f b ≤ f a)).head?) = some x) →
      x ∈ details ∧ ∀ y ∈ details, f y ≤ f x := by
    intro f x hx
    cases details with
    | nil => simp at hx
    | cons d ds =>
      rw [if_neg (by simp)] at hx
      exact head_mergeSort_max f (d :: ds) x hx
  exact ⟨hnone (fun s => s.totalQuantity), hnone (fun s => s.totalProfit),
    hmax (fun s => s.totalQuantity), hmax (fun s => s.totalProfit)⟩

/-- C4 (witness): on the two sample rows, the quantity argmax returns the
higher-quantity row, a member no other member beats. -/
theorem c4_argmax_null_iff_and_max_witness :
    psB ∈ [psA, psB] ∧ ∀ y ∈ [psA, psB], y.totalQuantity ≤ psB.totalQuantity :=
  (c4_argmax_null_iff_and_max [psA, psB]).2.2.1 psB
    (by simp [mostSellingProduct, List.mergeSort, psA, psB])

/-- C3: the product summary built by `generateSalesData` is additive per
product: a product has an entry exactly when some in-range bill carries a
line item for it, and then its totals are the sums of quantity,
price-times-quantity, and (price minus buying cost)-times-quantity over
all such line items; items with a missing product reference contribute
nothing and cause no error. -/
theorem c3_product_summary_additive (lo hi : Nat) (bills : List BillWithItems) (pid : String) :
    ((generateSalesData lo hi bills).productSalesDetails.find? (fun x => x.id = pid) = none
      ↔ soldLines lo hi pid bills = [])
    ∧ (∀ s, (generateSalesData lo hi bills).productSalesDetails.find? (fun x => x.id = pid)
          = some s →
        s.totalQuantity = qtyOf (soldLines lo hi pid bills)
        ∧ s.totalRevenue = revOf (soldLines lo hi pid bills)
        ∧ s.totalProfit = profOf (soldLines lo hi pid bills)) := by
  have hinv : ∀ p ∈ (bills.filter (inDateRange lo hi)).foldl applyBill [],
      p.2.id = p.1 :=
    applyBill_fold_id_inv (bills.filter (inDateRange lo hi)) [] (by simp)
  have hdet : (generateSalesData lo hi bills).productSalesDetails
      = ((bills.filter (inDateRange lo hi)).foldl applyBill []).map (fun p => p.2) := rfl
  have hbr := values_find?_eq_rlookup _ hinv pid
  have hM := applyBill_fold_create pid (bills.filter (inDateRange lo hi)) [] rfl
  rw [hdet, hbr]
  have hfindex : soldLines lo hi pid bills ≠ [] →
      ∃ b0, (bills.filter (inDateRange lo hi)).find?
        (fun b => !(linesFor pid b).isEmpty) = some b0 := by
    intro hne
    have hex : ∃ b ∈ bills.filter (inDateRange lo hi), linesFor pid b ≠ [] := by
      by_contra hall
      push_neg at hall
      apply hne
      unfold soldLines
      apply List.join_eq_nil_iff.mpr
      intro x hx
      rcases List.mem_map.mp hx with ⟨b, hb, hbe⟩
      rw [← hbe]
      exact hall b hb
    obtain ⟨b, hb, hbl⟩ := hex
    have hsome : ((bills.filter (inDateRange lo hi)).find?
        (fun b => !(linesFor pid b).isEmpty)).isSome = true :=
      List.find?_isSome.mpr ⟨b, hb, by simpa [List.isEmpty_iff] using hbl⟩
    obtain ⟨b0, hb0⟩ := Option.isSome_iff_exists.mp hsome
    exact ⟨b0, hb0⟩
  constructor
  · constructor
    · intro hnone
      by_contra hne
      obtain ⟨b0, hb0⟩ := hfindex hne
      obtain ⟨s', hs', _⟩ := hM.2 b0 hb0
      rw [hnone] at hs'
      exact Option.noConfusion hs'
    · intro hnil
      apply hM.1
      intro b hb
      unfold soldLines at hnil
      exact List.join_eq_nil_iff.mp hnil _ (List.mem_map_of_mem (linesFor pid) hb)
  · intro s hs
    have hne : soldLines lo hi pid bills ≠ [] := by
      intro hnil
      have hnone : rlookup ((bills.filter (inDateRange lo hi)).foldl applyBill []) pid
          = none := by
        apply hM.1
        intro b hb
        unfold soldLines at hnil
        exact List.join_eq_nil_iff.mp hnil _ (List.mem_map_of_mem (linesFor pid) hb)
      rw [hnone] at hs
      exact Option.noConfusion hs
    obtain ⟨b0, hb0⟩ := hfindex hne
    obtain ⟨s', hs', hq, hr, hpr, _, _⟩ := hM.2 b0 hb0
    rw [hs] at hs'
    injection hs' with he
    subst he
    exact ⟨hq, hr, hpr⟩

/-- C3 (witness): the spec's running example — two line items for "P1",
qty 3 and qty 2, both at price 50 with buying cost 30 — yields a summary
whose totals equal the sums qty 5, revenue 250, profit 100. -/
theorem c3_product_summary_additive_witness :
    (⟨"P1", "Product 1", "Cat", "B", 5, 30, 50, 250, 100, 1⟩
        : ProductSalesSummary).totalQuantity = qtyOf (soldLines 0 10 "P1" sampleBills)
    ∧ (⟨"P1", "Product 1", "Cat", "B", 5, 30, 50, 250, 100, 1⟩
        : ProductSalesSummary).totalRevenue = revOf (soldLines 0 10 "P1" sampleBills)
    ∧ (⟨"P1", "Product 1", "Cat", "B", 5, 30, 50, 250, 100, 1⟩
        : ProductSalesSummary).totalProfit = profOf (soldLines 0 10 "P1" sampleBills)
    ∧ qtyOf (soldLines 0 10 "P1" sampleBills) = 5
    ∧ revOf (soldLines 0 10 "P1" sampleBills) = 250
    ∧ profOf (soldLines 0 10 "P1" sampleBills) = 100 := by
  have h := (c3_product_summary_additive 0 10 sampleBills "P1").2
    ⟨"P1", "Product 1", "Cat", "B", 5, 30, 50, 250, 100, 1⟩ rfl
  exact ⟨h.1, h.2.1, h.2.2, rfl, rfl, rfl⟩

/-- C6 (counterexample): `lastSoldAt` is not the most recent in-range sale
of the product.  With two in-range bills selling "P1" at instants 1 and 2
(in that input order), the summary records `lastSoldAt = 1`, although the
in-range bill at instant 2 also sells "P1" — the field is set on first
sight and never updated. -/
theorem c6_counterexample :
    ((generateSalesData 0 10 sampleBills).productSalesDetails.map
        (fun s => s.lastSoldAt)) = [1]
    ∧ inDateRange 0 10 ⟨2, some [⟨some sampleProduct, 50, 2⟩]⟩ = true
    ∧ linesFor "P1" ⟨2, some [⟨some sampleProduct, 50, 2⟩]⟩ ≠ []
    ∧ (⟨2, some [⟨some sampleProduct, 50, 2⟩]⟩ : BillWithItems) ∈ sampleBills := by
  exact ⟨rfl, rfl, by decide, by simp [sampleBills]⟩

/-- C6 (amended): `lastSoldAt` equals the creation instant of the FIRST
in-range bill (in input order) that contains a line item for the product
— the accumulator seeds the field on first sight and never updates it, so
it is the most recent sale only when the input list is ordered
newest-first. -/
theorem c6_amended_lastSoldAt_first_sale (lo hi : Nat) (bills : List BillWithItems)
    (pid : String) (s : ProductSalesSummary) (b0 : BillWithItems)
    (hfind : (generateSalesData lo hi bills).productSalesDetails.find?
        (fun x => x.id = pid) = some s)
    (hfirst : firstSaleBill lo hi pid bills = some b0) :
    s.lastSoldAt = b0.createdAt := by
  have hinv : ∀ p ∈ (bills.filter (inDateRange lo hi)).foldl applyBill [],
      p.2.id = p.1 :=
    applyBill_fold_id_inv (bills.filter (inDateRange lo hi)) [] (by simp)
  have hdet : (generateSalesData lo hi bills).productSalesDetails
      = ((bills.filter (inDateRange lo hi)).foldl applyBill []).map (fun p => p.2) := rfl
  have hbr := values_find?_eq_rlookup _ hinv pid
  rw [hdet, hbr] at hfind
  have hM := applyBill_fold_create pid (bills.filter (inDateRange lo hi)) [] rfl
  unfold firstSaleBill at hfirst
  obtain ⟨s', hs', _, _, _, hl, _⟩ := hM.2 b0 hfirst
  rw [hfind] at hs'
  injection hs' with he
  subst he
  exact hl

/-- C6 (amended, witness): on the two sample bills (instants 1 then 2) the
summary's `lastSoldAt` equals the first in-range selling bill's instant 1. -/
theorem c6_amended_lastSoldAt_first_sale_witness :
    (⟨"P1", "Product 1", "Cat", "B", 5, 30, 50, 250, 100, 1⟩
        : ProductSalesSummary).lastSoldAt
      = (⟨1, some [⟨some sampleProduct, 50, 3⟩]⟩ : BillWithItems).createdAt :=
  c6_amended_lastSoldAt_first_sale 0 10 sampleBills "P1"
    ⟨"P1", "Product 1", "Cat", "B", 5, 30, 50, 250, 100, 1⟩
    ⟨1, some [⟨some sampleProduct, 50, 3⟩]⟩ rfl rfl

/-- C7: `getFilteredProductSales` returns exactly the detail rows passing
all three predicates conjunctively — category matches or the "all"
sentinel is selected, brand matches or "all", and the lowercased search
text is empty or a substring of the lowercased product name or id; with
no report data loaded it returns the empty list. -/
theorem c7_filter_conjunction (rd : SalesReportData)
    (selectedCategory selectedBrand searchQuery : String) (x : ProductSalesSummary) :
    (x ∈ getFilteredProductSales (some rd) selectedCategory selectedBrand searchQuery
      ↔ x ∈ rd.productSalesDetails
        ∧ (selectedCategory = "all" ∨ x.category = selectedCategory)
        ∧ (selectedBrand = "all" ∨ x.brand = selectedBrand)
        ∧ (searchQuery = ""
            ∨ strIncludes (jsToLower x.name) (jsToLower searchQuery) = true
            ∨ strIncludes (jsToLower x.id) (jsToLower searchQuery) = true))
    ∧ getFilteredProductSales none selectedCategory selectedBrand searchQuery = [] := by
  constructor
  · show x ∈ rd.productSalesDetails.filter _ ↔ _
    rw [List.mem_filter]
    simp only [Bool.and_eq_true, Bool.or_eq_true, beq_iff_eq]
    tauto
  · rfl

/-- C7 (witness): the sample Electronics/TechBrand row matches the filter
category "Electronics", brand "TechBrand", search "phone". -/
theorem c7_filter_conjunction_witness :
    psA ∈ getFilteredProductSales
      (some ⟨[psA, psB], some psB, some psB, []⟩) "Electronics" "TechBrand" "phone" :=
  (c7_filter_conjunction ⟨[psA, psB], some psB, some psB, []⟩
      "Electronics" "TechBrand" "phone" psA).1.mpr
    ⟨List.mem_cons_self psA [psB], Or.inr rfl, Or.inr rfl, Or.inr (Or.inl rfl)⟩

/-- C8: if any one of the five concurrently awaited fetches fails, the
refresh leaves the previously displayed view model untouched, surfaces
the single error message, and ends the loading state — no piece of the
succeeding results is applied. -/
theorem c8_fetch_failure_atomic (prev : SalesReportState)
    (d w m y : Except String (List SalesDataPoint)) (s : Except String FetchedSalesData)
    (herr : d.isOk = false ∨ w.isOk = false ∨ m.isOk = false ∨ y.isOk = false
      ∨ s.isOk = false) :
    (fetchData prev d w m y s).reportData = prev.reportData
    ∧ (fetchData prev d w m y s).loadError
        = some "Failed to fetch sales data. Please try again later."
    ∧ (fetchData prev d w m y s).isLoading = false := by
  cases d <;> cases w <;> cases m <;> cases y <;> cases s <;>
    simp_all [fetchData, Except.isOk, Except.toBool]

/-- C8 (witness): a failing daily fetch with the other four succeeding
leaves a previously displayed view model `none` unchanged and sets the
error. -/
theorem c8_fetch_failure_atomic_witness :
    (fetchData ⟨false, none, none⟩ (Except.error "network") (Except.ok []) (Except.ok [])
        (Except.ok []) (Except.ok ⟨[], [], [], [], none, none⟩)).reportData
      = (SalesReportState.mk false none none).reportData
    ∧ (fetchData ⟨false, none, none⟩ (Except.error "network") (Except.ok []) (Except.ok [])
        (Except.ok []) (Except.ok ⟨[], [], [], [], none, none⟩)).loadError
      = some "Failed to fetch sales data. Please try again later."
    ∧ (fetchData ⟨false, none, none⟩ (Except.error "network") (Except.ok []) (Except.ok [])
        (Except.ok []) (Except.ok ⟨[], [], [], [], none, none⟩)).isLoading = false :=
  c8_fetch_failure_atomic ⟨false, none, none⟩ (Except.error "network") (Except.ok [])
    (Except.ok []) (Except.ok []) (Except.ok ⟨[], [], [], [], none, none⟩)
    (Or.inl rfl)

/-- C9: the session helpers are total boolean functions of the backend
outcome: they return `true` exactly on a successful response carrying a
session, and `false` on a missing session, a typed backend error, or a
thrown exception (which both helpers catch). -/
theorem c9_session_helpers_total (o : AuthOutcome) :
    (checkActiveSession o = true ↔ ∃ s, o = .success (some s))
    ∧ (refreshSession o = true ↔ ∃ s, o = .success (some s))
    ∧ (∀ msg, checkActiveSession (.failure msg) = false
        ∧ refreshSession (.failure msg) = false
        ∧ checkActiveSession (.thrown msg) = false
        ∧ refreshSession (.thrown msg) = false) := by
  refine ⟨?_, ?_, fun msg => ⟨rfl, rfl, rfl, rfl⟩⟩ <;>
  · cases o with
    | success s => cases s <;> simp [checkActiveSession, refreshSession]
    | failure msg => simp [checkActiveSession, refreshSession]
    | thrown msg => simp [checkActiveSession, refreshSession]

/-- C9 (witness): a success outcome with a session makes
`checkActiveSession` return true. -/
theorem c9_session_helpers_total_witness :
    checkActiveSession (.success (some ⟨"user-1"⟩)) = true :=
  (c9_session_helpers_total (.success (some ⟨"user-1"⟩))).1.mpr ⟨⟨"user-1"⟩, rfl⟩

/-- C10 (witness): a concrete consequence — over one product with stock 0
and threshold 5 (counted out-of-stock, not low-stock), the two counts sum
to at most the list length. -/
theorem c10_stock_disjoint_witness :
    lowStockItems [⟨some 0, some 5⟩] + outOfStockItems [⟨some 0, some 5⟩]
      ≤ ([⟨some 0, some 5⟩] : List StockRow).length :=
  (c10_stock_disjoint [⟨some 0, some 5⟩]).2.2.2.1

end POS
